import Mathlib

/-!
Verification development for the Ghost external-media-inliner
(`src/media-inliner/QueueManager.js`, the `ExternalMediaInliner` class and
`src/media-inliner/service.js`).

The JavaScript code is shallowly embedded: strings become `List Char` or
`String`, JS numbers become `ℚ` (or `Int`/`Nat` where the code only ever
holds integers), maps become association lists, and the asynchronous
dispatcher becomes an explicit step function over a state type.  Random
jitter values and the results of outbound HTTP requests are supplied as
oracles (explicit function arguments), so every definition is executable.
-/

set_option autoImplicit false

namespace MediaInliner

/-! ## Service-layer option construction (`src/media-inliner/service.js`, lines 30-41)

Every numeric option is built with the JavaScript pattern
`config.get('mediaInliner')?.name || default`.  Optional chaining yields
`undefined` when the `mediaInliner` config section is absent; `||` takes the
right operand whenever the left one is falsy (absent or `0`).  JS numbers
are modelled as `Int` (the involved values are integral). -/

/-- Configuration record possibly found under the `mediaInliner` config key;
each field may itself be absent (`none` models `undefined`). -/
structure InlinerConfig where
  baseWaitOnRetry : Option Int
  cacheTTL : Option Int
  defaultRequestInterval : Option Int
  maxConcurrentRequestsPerDomain : Option Int
  maxRequestInterval : Option Int
  maxRetries : Option Int
  minExpectedResponseTime : Option Int
  minRequestInterval : Option Int
  retryableStatusCodes : Option (List Int)
  deriving Repr, DecidableEq

/-- Options handed to the `QueueManager` constructor. -/
structure QueueOptions where
  baseWaitOnRetry : Int
  cacheTTL : Int
  defaultRequestInterval : Int
  maxConcurrentRequestsPerDomain : Int
  maxRequestInterval : Int
  maxRetries : Int
  minExpectedResponseTime : Int
  minRequestInterval : Int
  retryableStatusCodes : List Int
  deriving Repr, DecidableEq

/-- JavaScript `a || d` for a possibly-absent number `a`: `undefined` and `0`
are falsy, every other integer is truthy. -/
def jsOrNum (v : Option Int) (d : Int) : Int :=
  match v with
  | none => d
  | some x => if x = 0 then d else x

/-- JavaScript `a || d` for a possibly-absent array `a`: arrays are always
truthy (even empty ones), only `undefined` falls through. -/
def jsOrList (v : Option (List Int)) (d : List Int) : List Int :=
  match v with
  | none => d
  | some l => l

/-- Field access through optional chaining `config.get('mediaInliner')?.f`. -/
def chain {α : Type} (cfg : Option InlinerConfig) (f : InlinerConfig → Option α) : Option α :=
  match cfg with
  | none => none
  | some c => f c

/-- Default retryable status codes from `service.js` line 40. -/
def defaultRetryableStatusCodes : List Int :=
  [429, 408, 502, 503, 504]

/-- The option object built by `service.js` lines 30-41 (the second
constructor argument of `MediaInliner`). -/
def buildQueueOptions (cfg : Option InlinerConfig) : QueueOptions :=
  { baseWaitOnRetry := jsOrNum (chain cfg InlinerConfig.baseWaitOnRetry) 3000
    cacheTTL := jsOrNum (chain cfg InlinerConfig.cacheTTL) (60 * 60 * 1000)
    defaultRequestInterval := jsOrNum (chain cfg InlinerConfig.defaultRequestInterval) 2000
    maxConcurrentRequestsPerDomain := jsOrNum (chain cfg InlinerConfig.maxConcurrentRequestsPerDomain) 1
    maxRequestInterval := jsOrNum (chain cfg InlinerConfig.maxRequestInterval) 15000
    maxRetries := jsOrNum (chain cfg InlinerConfig.maxRetries) 3
    minExpectedResponseTime := jsOrNum (chain cfg InlinerConfig.minExpectedResponseTime) 2000
    minRequestInterval := jsOrNum (chain cfg InlinerConfig.minRequestInterval) 2000
    retryableStatusCodes := jsOrList (chain cfg InlinerConfig.retryableStatusCodes) defaultRetryableStatusCodes }

/-! ## QueueManager constructor state (`QueueManager.js`, lines 6-21)

JS numbers are modelled as `ℚ`; `maxRetries` only ever occurs as a bound on
an integer retry counter and is modelled as `Nat`. -/

/-- The per-instance options stored by the `QueueManager` constructor. -/
structure QueueManager where
  baseWaitOnRetry : ℚ
  defaultRequestInterval : ℚ
  maxConcurrentRequestsPerDomain : Int
  maxRequestInterval : ℚ
  maxRetries : Nat
  minExpectedResponseTime : ℚ
  minRequestInterval : ℚ
  retryableStatusCodes : List Int
  deriving Repr, DecidableEq

/-- The `status` field of `error.response`, possibly absent. -/
structure JsErrorResponse where
  status : Option Int
  deriving Repr, DecidableEq

/-- A JS error thrown by `request`: it may carry a `statusCode` field and/or
a nested `response` object, plus an opaque message. -/
structure JsError where
  statusCode : Option Int
  response : Option JsErrorResponse
  message : String
  deriving Repr, DecidableEq

/-- The fallback operand `(error.response && error.response.status)`:
`undefined` when `response` is absent, otherwise `response.status`. -/
def responseStatusOf (e : JsError) : Option Int :=
  match e.response with
  | none => none
  | some r => r.status

/-- `error.statusCode || (error.response && error.response.status)`
(`QueueManager.js` lines 133 and 186): `undefined` and `0` are falsy, so
they fall through to the nested response status. -/
def getStatusCode (e : JsError) : Option Int :=
  match e.statusCode with
  | some s => if s = 0 then responseStatusOf e else some s
  | none => responseStatusOf e

/-- `this.retryableStatusCodes.includes(statusCode)`: an absent status code
is never an element of the list. -/
def statusIsRetryable (codes : List Int) (sc : Option Int) : Bool :=
  match sc with
  | none => false
  | some s => codes.contains s

/-- The retry jitter `1 + (0.15 + Math.random() * 0.35)` from line 192,
as a function of the drawn `Math.random()` value. -/
def retryJitter (u : ℚ) : ℚ :=
  1 + (0.15 + u * 0.35)

/-! ## `makeRequestWithRetry` (`QueueManager.js`, lines 177-202)

The outcome of the `k`-th HTTP attempt for this URL is supplied by the
oracle `attempts`, and the `Math.random()` draw used before the `k`-th
retry by the oracle `jitterU`.  The function returns the final outcome
together with the list of computed sleep durations (ms, floored), so the
number of attempts performed is `waits.length + 1`. -/

/-- Shallow embedding of `makeRequestWithRetry`.  `effectiveMaxRetries` is
the resolved value of the optional `maxRetries` parameter (caller's value,
or `this.maxRetries`). -/
def makeRequestWithRetry (qm : QueueManager) (attempts : Nat → Except JsError String)
    (jitterU : Nat → ℚ) (effectiveMaxRetries : Nat) (retryCount : Nat) :
    Except JsError String × List Int :=
  match attempts retryCount with
  | .ok response => (.ok response, [])
  | .error e =>
    if h : statusIsRetryable qm.retryableStatusCodes (getStatusCode e) = true ∧
        retryCount < effectiveMaxRetries then
      let waitTime : Int :=
        Int.floor (qm.baseWaitOnRetry * (retryCount + 1) * retryJitter (jitterU retryCount))
      let rest := makeRequestWithRetry qm attempts jitterU effectiveMaxRetries (retryCount + 1)
      (rest.1, waitTime :: rest.2)
    else
      (.error e, [])
termination_by effectiveMaxRetries - retryCount
decreasing_by omega

/-! ## Queue items and settlement of the completion sink
(`QueueManager.js`, `queueRequest` lines 207-232 and `processQueue` lines 69-172)

A `PendingRequest` models the `{url, options, resolve, reject}` item pushed
onto the per-domain queue; the one-shot completion sink is modelled by
recording, in an event log, each `resolve`/`reject` call tagged with the
item's identity.  `processQueue` is reduced to its effect on the queue and
that log: the guard returns at lines 75-77 (concurrency cap) and 83-90
(spacing timer) are modelled by a boolean `gate` oracle, and one gated
invocation performs `queue.shift()` (line 93) followed by exactly the
`resolve`/`reject` call of the `try`/`catch` (lines 127 and 162).  The
per-domain statistics mutations of the same block are embedded separately
(see `domainStatsOnSuccess`/`domainStatsOnError`) since they do not touch
the completion sink. -/

/-- A queued request item; `id` stands for the identity of the JS closure
pair `{resolve, reject}` so settlements can be attributed to their item. -/
structure PendingRequest where
  id : Nat
  url : String
  deriving Repr, DecidableEq

/-- One call on a completion sink: `resolve(result)` or `reject(error)`. -/
inductive Settlement where
  | resolved (id : Nat) (response : String)
  | rejected (id : Nat) (e : JsError)
  deriving Repr, DecidableEq

/-- The id of the item a settlement belongs to. -/
def settlementId : Settlement → Nat
  | .resolved i _ => i
  | .rejected i _ => i

/-- The single settlement performed for a dequeued item: `processQueue`
awaits `makeRequestWithRetry(requestItem.url, requestItem.options)` (line
105, so with the instance `maxRetries` and retry attempt 0) and then calls
`requestItem.resolve(result)` (line 127) on success or
`requestItem.reject(error)` (line 162) on failure.  The HTTP attempt
outcomes and jitter draws for each item are supplied by per-item oracles. -/
def settleItem (qm : QueueManager) (attemptsFor : Nat → Nat → Except JsError String)
    (jitterUFor : Nat → Nat → ℚ) (item : PendingRequest) : Settlement :=
  match (makeRequestWithRetry qm (attemptsFor item.id) (jitterUFor item.id) qm.maxRetries 0).1 with
  | .ok result => .resolved item.id result
  | .error e => .rejected item.id e

/-- One invocation of `processQueue` for a host, reduced to its queue and
settlement-log effect.  `gate = false` models the invocations that return
early at lines 75-77 or 83-90; a gated invocation with an empty queue
returns at lines 94-96. -/
def dispatchStep (qm : QueueManager) (attemptsFor : Nat → Nat → Except JsError String)
    (jitterUFor : Nat → Nat → ℚ) (st : List PendingRequest × List Settlement) (gate : Bool) :
    List PendingRequest × List Settlement :=
  if gate then
    match st.1 with
    | [] => st
    | item :: rest => (rest, st.2 ++ [settleItem qm attemptsFor jitterUFor item])
  else st

/-- A sequence of `processQueue` invocations for the host (each retriggered
by `setImmediate`/`setTimeout`), in execution order. -/
def runDispatch (qm : QueueManager) (attemptsFor : Nat → Nat → Except JsError String)
    (jitterUFor : Nat → Nat → ℚ) (gates : List Bool) (st : List PendingRequest × List Settlement) :
    List PendingRequest × List Settlement :=
  gates.foldl (dispatchStep qm attemptsFor jitterUFor) st

/-! ## QueueManager shared state (`QueueManager.js`, lines 9-11, 28-64, 207-260) -/

/-- Per-domain statistics created by `getOrCreateDomainStats` (lines 30-37). -/
structure DomainStats where
  minRequestInterval : ℚ
  lastRequestTime : ℚ
  requestsInFlight : Int
  successCount : Nat
  errorCount : Nat
  consecutiveErrors : Nat
  deriving Repr, DecidableEq

/-- The fresh stats record of lines 30-37. -/
def initialDomainStats (qm : QueueManager) : DomainStats :=
  { minRequestInterval := qm.defaultRequestInterval
    lastRequestTime := 0
    requestsInFlight := 0
    successCount := 0
    errorCount := 0
    consecutiveErrors := 0 }

/-- Lookup in a JS `Map` modelled as an association list. -/
def mapGet {α : Type} : List (String × α) → String → Option α
  | [], _ => none
  | p :: rest, k => if p.1 = k then some p.2 else mapGet rest k

/-- JS `Map.prototype.set`: replace the value if the key is present
(keeping its position), otherwise append a new entry. -/
def mapSet {α : Type} : List (String × α) → String → α → List (String × α)
  | [], k, v => [(k, v)]
  | p :: rest, k, v => if p.1 = k then (k, v) :: rest else p :: mapSet rest k v

/-- The three per-domain maps held by a `QueueManager` instance
(lines 9-11). -/
structure QMState where
  domainStats : List (String × DomainStats)
  requestQueues : List (String × List PendingRequest)
  activeRequests : List (String × Int)
  deriving Repr, DecidableEq

/-- `getOrCreateRequestQueue` (lines 47-52): create an empty queue for the
domain if absent, and return the (possibly updated) state with the queue. -/
def getOrCreateRequestQueue (st : QMState) (domain : String) : QMState × List PendingRequest :=
  match mapGet st.requestQueues domain with
  | some q => (st, q)
  | none => ({ st with requestQueues := mapSet st.requestQueues domain [] }, [])

/-- Outcome of `queueRequest`: the promise is rejected synchronously for a
malformed URL, or a request item is enqueued for the extracted host. -/
inductive QueueOutcome where
  | rejectedInvalidUrl (url : String)
  | enqueued (domain : String)
  deriving Repr, DecidableEq

/-- `queueRequest` (lines 207-232).  `parseHostname` models
`new URL(url).hostname`, returning `none` when the parser throws; in that
case the promise is rejected with the Invalid URL error and the executor
returns (line 214-215) before any of the three maps is read or written.
Otherwise the item is appended to the domain's queue. -/
def queueRequest (parseHostname : String → Option String) (st : QMState) (url : String)
    (freshId : Nat) : QMState × QueueOutcome :=
  match parseHostname url with
  | none => (st, .rejectedInvalidUrl url)
  | some domain =>
    let (st1, queue) := getOrCreateRequestQueue st domain
    let st2 := { st1 with requestQueues := mapSet st1.requestQueues domain (queue ++ [⟨freshId, url⟩]) }
    (st2, .enqueued domain)

/-- `areAllQueuesEmpty` (lines 237-244): iterate over the queue map values
and report `false` as soon as one has positive length. -/
def areAllQueuesEmpty (st : QMState) : Bool :=
  st.requestQueues.all fun p => if p.2.length > 0 then false else true

/-- The second conjunct of line 252:
`[...this.activeRequests.values()].every(count => count === 0)`. -/
def allActiveCountsZero (st : QMState) : Bool :=
  st.activeRequests.all fun p => p.2 == 0

/-- The condition tested by `checkQueues` (line 252): all queues empty and
every per-host active-request count equal to 0. -/
def waitCheckPasses (st : QMState) : Bool :=
  areAllQueuesEmpty st && allActiveCountsZero st

/-- The polling delay of `waitForAllQueues` (`setTimeout(checkQueues, 100)`,
line 255), in milliseconds. -/
def waitPollIntervalMs : Nat := 100

/-- `waitForAllQueues` (lines 249-260) resolves at the `n`-th poll of the
state sequence `states` (one sample every `waitPollIntervalMs` ms): the
check passes there and at no earlier poll. -/
def waitForAllQueuesResolvesAt (states : Nat → QMState) (n : Nat) : Prop :=
  waitCheckPasses (states n) = true ∧ ∀ m < n, waitCheckPasses (states m) = false

/-! ## Per-domain interval adaptation (`QueueManager.js`, lines 103-155)

The statistics mutations performed by one completed dispatch, as a pure
update of `DomainStats`.  Whether the success branch is the fast or the
slow one is determined by `responseTime <= this.minExpectedResponseTime`
(line 115); the comparison outcome is carried by the event.  The
`Math.random()` draw of line 107 is carried as `u ∈ [0,1)`. -/

/-- The success jitter `1 + (0.15 + Math.random() * 0.55)` of line 107. -/
def successJitter (u : ℚ) : ℚ :=
  1 + (0.15 + u * 0.55)

/-- Lines 104-127 (statistics part): `successCount++`; the fast branch
(line 117) floors the interval at `this.minRequestInterval * jitter`, the
slow branch (line 121) caps it at `this.maxRequestInterval * jitter`;
`consecutiveErrors` decreases but not below zero (line 126). -/
def domainStatsOnSuccess (qm : QueueManager) (fast : Bool) (u : ℚ) (ds : DomainStats) : DomainStats :=
  let jitter := successJitter u
  let ds1 := { ds with successCount := ds.successCount + 1 }
  let ds2 :=
    if fast then
      { ds1 with minRequestInterval := max (qm.minRequestInterval * jitter) (ds1.minRequestInterval * 0.95) }
    else
      { ds1 with minRequestInterval := min (qm.maxRequestInterval * jitter) (ds1.minRequestInterval * 1.1) }
  { ds2 with consecutiveErrors := ds2.consecutiveErrors - 1 }

/-- Lines 129-155 (statistics part): `errorCount++` and
`consecutiveErrors++` happen first; then, for a retryable status code,
either the first-contact penalty `minRequestInterval = 10000` (line 140,
when `successCount === 0`) or the tripling capped at 30000 (line 143);
otherwise the consecutive-error doubling (line 149) or the early-error
1.5x growth (line 153), both capped at `this.maxRequestInterval`. -/
def domainStatsOnError (qm : QueueManager) (retryableStatus : Bool) (ds : DomainStats) : DomainStats :=
  let ds1 := { ds with errorCount := ds.errorCount + 1, consecutiveErrors := ds.consecutiveErrors + 1 }
  if retryableStatus then
    if ds1.successCount = 0 then
      { ds1 with minRequestInterval := 10000 }
    else
      { ds1 with minRequestInterval := min 30000 (ds1.minRequestInterval * 3) }
  else if ds1.consecutiveErrors ≥ 2 then
    { ds1 with minRequestInterval := min qm.maxRequestInterval (ds1.minRequestInterval * 2) }
  else if ds1.errorCount > 0 ∧ ds1.successCount = 0 then
    { ds1 with minRequestInterval := min qm.maxRequestInterval (ds1.minRequestInterval * 1.5) }
  else
    ds1

/-- One completed dispatch, seen by the domain statistics: a success with
its speed comparison and jitter draw, or a failure with the thrown error
(whose status code is tested against `this.retryableStatusCodes`,
line 136). -/
inductive AdaptEvent where
  | success (fast : Bool) (u : ℚ)
  | failure (e : JsError)
  deriving Repr, DecidableEq

/-- Apply one completed dispatch to the domain statistics. -/
def adaptStep (qm : QueueManager) (ds : DomainStats) : AdaptEvent → DomainStats
  | .success fast u => domainStatsOnSuccess qm fast u ds
  | .failure e => domainStatsOnError qm (statusIsRetryable qm.retryableStatusCodes (getStatusCode e)) ds

/-- The domain statistics reached from the freshly created record after a
sequence of completed dispatches. -/
def runAdapt (qm : QueueManager) (evs : List AdaptEvent) : DomainStats :=
  evs.foldl (adaptStep qm) (initialDomainStats qm)

/-- An event is valid when its `Math.random()` draw lies in `[0,1)`. -/
def validAdaptEvent : AdaptEvent → Prop
  | .success _ u => 0 ≤ u ∧ u < 1
  | .failure _ => True

/-- All events of a dispatch history carry valid random draws. -/
def validAdaptEvents (evs : List AdaptEvent) : Prop :=
  ∀ ev ∈ evs, validAdaptEvent ev

/-- The interval invariant exactly as claim C4 states it: the per-host
interval is at most `max(30000, configured maxRequestInterval)` and at
least the configured `minRequestInterval` unless it is exactly the 10000
penalty value. -/
def c4ClaimedInvariant (qm : QueueManager) (ds : DomainStats) : Prop :=
  ds.minRequestInterval ≤ max 30000 qm.maxRequestInterval ∧
    (qm.minRequestInterval ≤ ds.minRequestInterval ∨ ds.minRequestInterval = 10000)

/-! ## URL normalization (`ExternalMediaInliner`, `getRemoteMedia` lines
317-320, `inlineContent` line 466, `inlineFields` line 533)

`encodeURI` is embedded following ECMA-262: code points in the unreserved
set (uriAlpha, digits, uriMark, uriReserved and the hash sign) pass
through, every other code point is percent-encoded byte by byte in UTF-8
with uppercase hexadecimal digits.  Lean strings are sequences of Unicode
scalar values, which matches well-formed JS strings (surrogate pairs are
combined before UTF-8 encoding). -/

/-- Characters that `encodeURI` leaves unescaped. -/
def isUriUnescapedChar (c : Char) : Bool :=
  c.isAlpha || c.isDigit ||
    [';', '/', '?', ':', '@', '&', '=', '+', '$', ',',
      '-', '_', '.', '!', '~', '*', Char.ofNat 39, '(', ')', '#'].contains c

/-- UTF-8 bytes of a Unicode scalar value. -/
def utf8BytesOfChar (c : Char) : List Nat :=
  let n := c.toNat
  if n < 0x80 then [n]
  else if n < 0x800 then [0xC0 + n / 0x40, 0x80 + n % 0x40]
  else if n < 0x10000 then
    [0xE0 + n / 0x1000, 0x80 + n / 0x40 % 0x40, 0x80 + n % 0x40]
  else
    [0xF0 + n / 0x40000, 0x80 + n / 0x1000 % 0x40, 0x80 + n / 0x40 % 0x40, 0x80 + n % 0x40]

/-- Uppercase hexadecimal digit for a value below 16. -/
def hexDigitChar (n : Nat) : Char :=
  if n < 10 then Char.ofNat (48 + n) else Char.ofNat (55 + n)

/-- Percent-encoding of one byte, `%XY` with uppercase hex. -/
def percentEncodeByte (b : Nat) : List Char :=
  ['%', hexDigitChar (b / 16), hexDigitChar (b % 16)]

/-- `encodeURI` over the characters of a string. -/
def encodeURIChars : List Char → List Char
  | [] => []
  | c :: rest =>
    (if isUriUnescapedChar c then [c]
     else (utf8BytesOfChar c).foldr (fun b acc => percentEncodeByte b ++ acc) []) ++
      encodeURIChars rest

/-- The scheme prefix substituted for a protocol-relative URL. -/
def httpSchemeChars : List Char := "http://".toList

/-- `raw.replace(/^\/\//g, 'http://')`: the regex is anchored, so at most
the single leading `//` is rewritten. -/
def replaceLeadingDoubleSlash (s : List Char) : List Char :=
  match s with
  | '/' :: '/' :: rest => httpSchemeChars ++ rest
  | other => other

/-- The normalized request URL of `getRemoteMedia` (lines 317-320):
`requestURL = requestURL.replace(/^\/\//g, 'http://')` followed by
`requestURL = encodeURI(requestURL)`; this exact string is what is handed
to `queueRequest` (line 324). -/
def getRemoteMediaNormalizedUrl (requestURL : String) : String :=
  ⟨encodeURIChars (replaceLeadingDoubleSlash requestURL.toList)⟩

/-- The cache key computed by `inlineContent` (line 466):
`encodeURI(src.replace(/^\/\//g, 'http://'))`. -/
def inlineContentNormalizedSrc (src : String) : String :=
  ⟨encodeURIChars (replaceLeadingDoubleSlash src.toList)⟩

/-- The cache key computed by `inlineFields` (line 533):
`encodeURI(src.replace(/^\/\//g, 'http://'))`. -/
def inlineFieldsNormalizedSrc (src : String) : String :=
  ⟨encodeURIChars (replaceLeadingDoubleSlash src.toList)⟩

/-! ## Shared URL cache interaction (`inlineContent` lines 464-508,
`inlineFields` lines 531-564)

The handling of one candidate URL `src`: compute the normalized key, use
the cached file path on a hit, otherwise fetch the media and, if fetching,
extraction and storage all succeed, record the stored path under the
normalized key.  `fetchStore` is the oracle composing `getRemoteMedia`,
`extractFileDataFromResponse` and `storeMediaLocally` for a raw `src`
(`some path` when all three produce a path, `none` when any of them yields
`null`). -/

/-- Result of processing one URL against the shared cache. -/
structure UrlStepResult where
  cache : List (String × String)
  filePath : Option String
  fetchCount : Nat
  deriving Repr, DecidableEq

/-- The per-URL cache step of `inlineContent` (lines 464-508). -/
def inlineContentUrlStep (fetchStore : String → Option String)
    (cache : List (String × String)) (src : String) : UrlStepResult :=
  let normalizedSrc := inlineContentNormalizedSrc src
  match mapGet cache normalizedSrc with
  | some filePath => { cache := cache, filePath := some filePath, fetchCount := 0 }
  | none =>
    match fetchStore src with
    | some filePath =>
      { cache := mapSet cache normalizedSrc filePath, filePath := some filePath, fetchCount := 1 }
    | none => { cache := cache, filePath := none, fetchCount := 1 }

/-- The per-URL cache step of `inlineFields` (lines 531-564); identical
cache discipline keyed on `inlineFieldsNormalizedSrc`. -/
def inlineFieldsUrlStep (fetchStore : String → Option String)
    (cache : List (String × String)) (src : String) : UrlStepResult :=
  let normalizedSrc := inlineFieldsNormalizedSrc src
  match mapGet cache normalizedSrc with
  | some filePath => { cache := cache, filePath := some filePath, fetchCount := 0 }
  | none =>
    match fetchStore src with
    | some filePath =>
      { cache := mapSet cache normalizedSrc filePath, filePath := some filePath, fetchCount := 1 }
    | none => { cache := cache, filePath := none, fetchCount := 1 }

/-! ## Content rewriting (`inlineContent` lines 469-481 and 490-507)

The rewrite builds `escapedSrc = src.replace(/[.*+?^${}()|[\]\\]/g, '\\$&')`
and performs `content.replace(new RegExp(escapedSrc, 'g'), inlinedSrc)`.
Escaping every regex metacharacter makes the constructed pattern denote the
literal string `src`, so the global replace is embedded as a literal
leftmost, non-overlapping replacement.  The replacement string, however,
goes through the ECMA-262 GetSubstitution processing, where `$$`, `$&`,
backtick-`$` and quote-`$` sequences are special; this is embedded by
`jsGetSubstitution` (the pattern has no capture groups, so `$<digit>`
sequences stay literal). -/

/-- The characters escaped by line 475/498:
`[.*+?^${}()|[\]\\]` (dot, star, plus, question mark, caret, dollar,
braces, parentheses, pipe, brackets, backslash). -/
def regexMetaChars : List Char :=
  ['.', '*', '+', '?', '^', '$', Char.ofNat 123, Char.ofNat 125,
    '(', ')', '|', '[', ']', '\\']

/-- `src.replace(/[.*+?^${}()|[\]\\]/g, '\\$&')`: prefix every
metacharacter with a backslash. -/
def escapeRegExpChars (s : List Char) : List Char :=
  s.foldr (fun c acc => (if regexMetaChars.contains c then ['\\', c] else [c]) ++ acc) []

/-- ECMA-262 GetSubstitution for a pattern with no capture groups:
`$$` emits `$`, `$&` emits the matched text, `$` followed by a backtick
emits the text before the match, `$` followed by a quote emits the text
after the match; any other `$` sequence is literal. -/
def jsGetSubstitution (matched before after : List Char) : List Char → List Char
  | [] => []
  | c :: rest =>
    if c = '$' then
      match rest with
      | [] => [c]
      | d :: rest2 =>
        if d = '$' then '$' :: jsGetSubstitution matched before after rest2
        else if d = '&' then matched ++ jsGetSubstitution matched before after rest2
        else if d = Char.ofNat 96 then before ++ jsGetSubstitution matched before after rest2
        else if d = Char.ofNat 39 then after ++ jsGetSubstitution matched before after rest2
        else c :: d :: jsGetSubstitution matched before after rest2
    else c :: jsGetSubstitution matched before after rest

/-- Leftmost occurrence split: `some (b, a)` when `s = b ++ pat ++ a` with
`b` shortest, `none` when `pat` does not occur in `s`. -/
def splitFirst (pat : List Char) : List Char → Option (List Char × List Char)
  | [] => if pat.isPrefixOf [] then some ([], []) else none
  | c :: t =>
    if pat.isPrefixOf (c :: t) then some ([], (c :: t).drop pat.length)
    else (splitFirst pat t).map fun p => (c :: p.1, p.2)

/-- Global replacement of the empty pattern: the empty regex matches at
every position (including the end), interleaving the substitution with the
input characters.  `pre` is the already-consumed original prefix (needed
by GetSubstitution). -/
def jsReplaceAllEmptyPat (repl : List Char) (pre : List Char) : List Char → List Char
  | [] => jsGetSubstitution [] pre [] repl
  | c :: rest => jsGetSubstitution [] pre (c :: rest) repl ++ c :: jsReplaceAllEmptyPat repl (pre ++ [c]) rest

/-- Worker for global literal replacement: repeatedly split at the leftmost
occurrence and emit the processed replacement.  `pre` accumulates the
original text before the current suffix (GetSubstitution's before-text);
the fuel only serves termination, `fuel ≥ s.length` is always enough
because each round consumes `pat.length ≥ 1` characters. -/
def jsReplaceAllAux (pat repl : List Char) : Nat → List Char → List Char → List Char
  | 0, _, s => s
  | fuel + 1, pre, s =>
    match splitFirst pat s with
    | none => s
    | some (b, a) =>
      b ++ jsGetSubstitution pat (pre ++ b) a repl ++
        jsReplaceAllAux pat repl fuel (pre ++ b ++ pat) a

/-- `s.replace(new RegExp(escaped pat, 'g'), repl)` for a literal pattern
`pat`: every leftmost non-overlapping occurrence of `pat` is replaced by
the GetSubstitution-processed `repl`. -/
def jsReplaceAll (s pat repl : List Char) : List Char :=
  if pat = [] then jsReplaceAllEmptyPat repl [] s
  else jsReplaceAllAux pat repl s.length [] s

/-- The literal token put in front of every rewritten reference. -/
def ghostUrlToken : List Char := "__GHOST_URL__".toList

/-- The rewrite step of `inlineContent` (lines 490-507, and identically
lines 469-481 on a cache hit): replace every occurrence of the matched
source URL by `__GHOST_URL__` followed by the stored file path. -/
def inlineContentRewrite (content src filePath : List Char) : List Char :=
  jsReplaceAll content src (ghostUrlToken ++ filePath)

/-- Leftmost non-overlapping decomposition of `s` along occurrences of
`pat`: the parts between consecutive matched occurrences (fuelled like
`jsReplaceAllAux`). -/
def splitOnOcc (pat : List Char) : Nat → List Char → List (List Char)
  | 0, s => [s]
  | fuel + 1, s =>
    match splitFirst pat s with
    | none => [s]
    | some (b, a) => b :: splitOnOcc pat fuel a

/-- The leftmost non-overlapping occurrence decomposition of `s`. -/
def splitOnOccurrences (pat s : List Char) : List (List Char) :=
  splitOnOcc pat s.length s

/-- Join a list of parts with a separator between consecutive parts. -/
def intercalateChars (sep : List Char) : List (List Char) → List Char
  | [] => []
  | [x] => x
  | x :: y :: rest => x ++ sep ++ intercalateChars sep (y :: rest)

/-! ## Filename derivation (`extractFileDataFromResponse`, lines 386-394)

Only the step that removes the extension from the URL's last path segment
is needed here: `const removeExtRegExp = new RegExp('.' + extension, '')`
followed by `path.parse(requestURL).base.replace(removeExtRegExp, '')`.
The regex is built without escaping or anchoring, so its first character
is the wildcard dot and it deletes the FIRST substring consisting of any
non-line-terminator character followed by the literal extension (the
extensions produced by the surrounding code are alphanumeric, so the rest
of the pattern is literal). -/

/-- JS line terminators, which the regex wildcard dot does not match. -/
def isLineTerminatorChar (c : Char) : Bool :=
  c == '\n' || c == '\r' || c == Char.ofNat 0x2028 || c == Char.ofNat 0x2029

/-- `path.parse(url).base` for a POSIX path: the substring after the last
slash (URLs ending in a slash are not modelled). -/
def lastPathSegment (url : List Char) : List Char :=
  url.foldl (fun acc c => if c = '/' then [] else acc ++ [c]) []

/-- Non-global `base.replace(new RegExp('.' + ext, ''), '')`: delete the
first occurrence of one wildcard-matched character followed by the literal
extension; if the pattern never matches, the string is unchanged. -/
def removeFirstDotExtMatch (ext : List Char) : List Char → List Char
  | [] => []
  | c :: rest =>
    if !(isLineTerminatorChar c) && ext.isPrefixOf rest then rest.drop ext.length
    else c :: removeFirstDotExtMatch ext rest

/-- `fileNameNoExt` of line 387, as a function of the request URL and the
already-determined extension. -/
def fileNameNoExtOf (requestURL ext : List Char) : List Char :=
  removeFirstDotExtMatch ext (lastPathSegment requestURL)

/-! ## Match scanning (`ExternalMediaInliner.findMatches`, lines 427-443)

The scanner builds
`new RegExp('(' + domain + '.*?)' + '("|\\)|\'|(?=(?:,https?))| |<|\\\\|&quot;|$)', 'igm')`
and collects group 1 of every `matchAll` result, then strips one trailing
comma from each match.  The embedding interprets the pattern for the
domain strings this code receives (scheme-prefixed URL prefixes): in the
interpolated `domain`, a dot is the regex wildcard (any character except a
line terminator) and every other character matches itself up to case (the
`i` flag); `.*?` extends one character at a time until the first position
where the terminator group matches, trying the alternatives of that group
in source order; with the `m` flag, `$` matches at the end of the input
and before any line terminator. -/

/-- Case-insensitive character comparison (the `i` flag). -/
def ciCharEq (a b : Char) : Bool :=
  a.toLower == b.toLower

/-- Case-insensitive prefix test. -/
def ciStartsWith : List Char → List Char → Bool
  | [], _ => true
  | _ :: _, [] => false
  | p :: ps, c :: cs => ciCharEq p c && ciStartsWith ps cs

/-- The decisive part of the lookahead `(?=(?:,https?))`: the optional `s?`
never affects whether the lookahead succeeds, so the test is for a comma
followed by `http`. -/
def commaHttpChars : List Char := ",http".toList

/-- The HTML-encoded quote alternative `&quot;`. -/
def quotEntityChars : List Char := "&quot;".toList

/-- The terminator group `("|\)|'|(?=(?:,https?))| |<|\\|&quot;|$)` tested
at the position whose suffix is `s`, alternatives in source order; returns
the number of characters the group consumes (0 for the lookahead and for
`$`), or `none` when no alternative matches. -/
def srcTerminationMatch (s : List Char) : Option Nat :=
  match s with
  | [] => some 0
  | c :: _ =>
    if c = '"' then some 1
    else if c = ')' then some 1
    else if c = Char.ofNat 39 then some 1
    else if ciStartsWith commaHttpChars s then some 0
    else if c = ' ' then some 1
    else if c = '<' then some 1
    else if c = '\\' then some 1
    else if ciStartsWith quotEntityChars s then some 6
    else if isLineTerminatorChar c then some 0
    else none

/-- Whether the interpolated domain character `d` matches the content
character `c`: a dot in the domain is the regex wildcard, anything else is
a case-insensitive literal. -/
def domCharMatches (d c : Char) : Bool :=
  if d = '.' then !(isLineTerminatorChar c) else ciCharEq d c

/-- Match the interpolated domain against the head of `s`, returning the
consumed content characters (the start of capture group 1) and the
remaining suffix. -/
def domainMatchExtract : List Char → List Char → Option (List Char × List Char)
  | [], s => some ([], s)
  | _ :: _, [] => none
  | d :: ds, c :: cs =>
    if domCharMatches d c then
      match domainMatchExtract ds cs with
      | some (m, rest) => some (c :: m, rest)
      | none => none
    else none

/-- Expand `.*?` non-greedily: consume characters one at a time until the
first position where the terminator group matches, returning the consumed
extension and the characters the terminator consumes.  (A line terminator
is never consumed: `$` matches right before it.) -/
def scanExtension (acc : List Char) : List Char → Option (List Char × Nat)
  | [] =>
    match srcTerminationMatch [] with
    | some consumed => some (acc.reverse, consumed)
    | none => none
  | c :: rest =>
    match srcTerminationMatch (c :: rest) with
    | some consumed => some (acc.reverse, consumed)
    | none => scanExtension (c :: acc) rest

/-- Attempt a match at the position whose suffix is `s`: group 1 is the
domain text followed by the non-greedy extension; the returned number is
the length of the full match (group 1 plus the terminator's consumption),
i.e. how far `lastIndex` advances. -/
def tryMatchAt (dom s : List Char) : Option (List Char × Nat) :=
  match domainMatchExtract dom s with
  | none => none
  | some (m0, rest) =>
    match scanExtension [] rest with
    | none => none
    | some (ext, consumed) => some (m0 ++ ext, dom.length + ext.length + consumed)

/-- `content.matchAll(regex)` reduced to the list of group-1 captures: scan
left to right, at each position attempt a match, and after a match resume
after its full length — at least one character, which is `matchAll`'s
advance rule for empty matches.  The fuel argument only serves structural
termination: every round consumes at least one character, so any
`fuel ≥ s.length` computes the full scan. -/
def scanAllMatchesAux (dom : List Char) : Nat → List Char → List (List Char)
  | 0, _ => []
  | _ + 1, [] => []
  | fuel + 1, c :: rest =>
    match tryMatchAt dom (c :: rest) with
    | none => scanAllMatchesAux dom fuel rest
    | some (m1, n) => m1 :: scanAllMatchesAux dom fuel ((c :: rest).drop (max n 1))

/-- The scan over the whole content string. -/
def scanAllMatches (dom s : List Char) : List (List Char) :=
  scanAllMatchesAux dom s.length s

/-- `item.replace(/,$/, '')`: strip one trailing comma. -/
def stripTrailingComma (l : List Char) : List Char :=
  match l.getLast? with
  | some c => if c = ',' then l.dropLast else l
  | none => l

/-- `findMatches(content, domain)` (lines 427-443). -/
def findMatches (content dom : List Char) : List (List Char) :=
  (scanAllMatches dom content).map stripTrailingComma

/-! ### The scanner as claim C8 words it

Modelled from the claim's words: identical to the embedding above except
for the comma terminator, which the claim states as a comma immediately
followed by `http://` or `https://` (the code's lookahead `(?=(?:,https?))`
has no `://` part).  This variant exists to compare the claimed behaviour
with the code's. -/

/-- Comma followed by the full `http://` scheme, as the claim states. -/
def commaHttpSchemeChars : List Char := ",http://".toList

/-- Comma followed by the full `https://` scheme, as the claim states. -/
def commaHttpsSchemeChars : List Char := ",https://".toList

/-- The terminator group as claim C8 describes it. -/
def srcTerminationMatchClaim (s : List Char) : Option Nat :=
  match s with
  | [] => some 0
  | c :: _ =>
    if c = '"' then some 1
    else if c = ')' then some 1
    else if c = Char.ofNat 39 then some 1
    else if ciStartsWith commaHttpSchemeChars s || ciStartsWith commaHttpsSchemeChars s then some 0
    else if c = ' ' then some 1
    else if c = '<' then some 1
    else if c = '\\' then some 1
    else if ciStartsWith quotEntityChars s then some 6
    else if isLineTerminatorChar c then some 0
    else none

/-- Non-greedy extension under the claimed terminator set. -/
def scanExtensionClaim (acc : List Char) : List Char → Option (List Char × Nat)
  | [] =>
    match srcTerminationMatchClaim [] with
    | some consumed => some (acc.reverse, consumed)
    | none => none
  | c :: rest =>
    match srcTerminationMatchClaim (c :: rest) with
    | some consumed => some (acc.reverse, consumed)
    | none => scanExtensionClaim (c :: acc) rest

/-- Match attempt under the claimed terminator set. -/
def tryMatchAtClaim (dom s : List Char) : Option (List Char × Nat) :=
  match domainMatchExtract dom s with
  | none => none
  | some (m0, rest) =>
    match scanExtensionClaim [] rest with
    | none => none
    | some (ext, consumed) => some (m0 ++ ext, dom.length + ext.length + consumed)

/-- Scan under the claimed terminator set (fuelled like
`scanAllMatchesAux`). -/
def scanAllMatchesClaimAux (dom : List Char) : Nat → List Char → List (List Char)
  | 0, _ => []
  | _ + 1, [] => []
  | fuel + 1, c :: rest =>
    match tryMatchAtClaim dom (c :: rest) with
    | none => scanAllMatchesClaimAux dom fuel rest
    | some (m1, n) => m1 :: scanAllMatchesClaimAux dom fuel ((c :: rest).drop (max n 1))

/-- The claim-side scan over the whole content string. -/
def scanAllMatchesClaim (dom s : List Char) : List (List Char) :=
  scanAllMatchesClaimAux dom s.length s

/-- `findMatches` as the claim describes it. -/
def findMatchesClaim (content dom : List Char) : List (List Char) :=
  (scanAllMatchesClaim dom content).map stripTrailingComma

/-! ## Concrete sample data used to instantiate the theorems below -/

/-- A `QueueManager` built from the service-layer defaults. -/
def qmSample : QueueManager :=
  { baseWaitOnRetry := 3000
    defaultRequestInterval := 2000
    maxConcurrentRequestsPerDomain := 1
    maxRequestInterval := 15000
    maxRetries := 3
    minExpectedResponseTime := 2000
    minRequestInterval := 2000
    retryableStatusCodes := defaultRetryableStatusCodes }

/-- An empty error message. -/
def emptyMessage : String := ""

/-- A rate-limit error carrying `statusCode: 429`. -/
def errorWith429 : JsError :=
  { statusCode := some 429, response := none, message := emptyMessage }

/-- A non-retryable error carrying `statusCode: 404`. -/
def errorWith404 : JsError :=
  { statusCode := some 404, response := none, message := emptyMessage }

/-- A sample successful response body. -/
def sampleOkBody : String := "ok"

/-- Attempt oracle: first attempt fails with 429, later attempts succeed. -/
def attempts429ThenOk : Nat → Except JsError String :=
  fun k => if k = 0 then .error errorWith429 else .ok sampleOkBody

/-- Attempt oracle: every attempt fails with 404. -/
def attemptsAlways404 : Nat → Except JsError String :=
  fun _ => .error errorWith404

/-- Per-item attempt oracle: every item's first attempt fails with 429 and
later attempts succeed. -/
def attemptsForSample : Nat → Nat → Except JsError String :=
  fun _ => attempts429ThenOk

/-- Jitter oracle drawing 0 every time. -/
def zeroJitterU : Nat → ℚ := fun _ => 0

/-- Per-item jitter oracle drawing 0 every time. -/
def zeroJitterUFor : Nat → Nat → ℚ := fun _ _ => 0

/-- Two sample request URLs. -/
def sampleUrlA : String := "https://a.com/x.png"

/-- Second sample request URL. -/
def sampleUrlB : String := "https://a.com/y.png"

/-- A sample two-item queue. -/
def sampleQueue : List PendingRequest :=
  [⟨1, sampleUrlA⟩, ⟨2, sampleUrlB⟩]

/-- A gate sequence with two effective dispatches. -/
def sampleGates : List Bool := [true, false, true]

/-- The empty `QueueManager` map state. -/
def emptyQMState : QMState := ⟨[], [], []⟩

/-- A URL the WHATWG parser rejects. -/
def invalidUrlSample : String := "not a url"

/-- A hostname parser that rejects every input. -/
def parseHostnameNone : String → Option String := fun _ => none

/-- C4 counterexample configuration with a high configured minimum:
`minRequestInterval = defaultRequestInterval = 12000`,
`maxRequestInterval = 15000`. -/
def qmC4Low : QueueManager :=
  { baseWaitOnRetry := 3000
    defaultRequestInterval := 12000
    maxConcurrentRequestsPerDomain := 1
    maxRequestInterval := 15000
    maxRetries := 3
    minExpectedResponseTime := 2000
    minRequestInterval := 12000
    retryableStatusCodes := defaultRetryableStatusCodes }

/-- C4 counterexample configuration with a large configured maximum:
`maxRequestInterval = 40000`. -/
def qmC4High : QueueManager :=
  { baseWaitOnRetry := 3000
    defaultRequestInterval := 2000
    maxConcurrentRequestsPerDomain := 1
    maxRequestInterval := 40000
    maxRetries := 3
    minExpectedResponseTime := 2000
    minRequestInterval := 2000
    retryableStatusCodes := defaultRetryableStatusCodes }

/-- C4 counterexample history: a first-contact 429 penalty followed by one
slow success. -/
def c4EventsLow : List AdaptEvent :=
  [.failure errorWith429, .success false 0]

/-- C4 counterexample history: 32 slow successes whose jitter draw 9/11
makes the success jitter exactly 1.6. -/
def c4EventsHigh : List AdaptEvent :=
  List.replicate 32 (.success false (9/11))

/-- Raw protocol-relative URL for the normalization witness. -/
def rawProtoRelUrl : String := "//x.com/a.png"

/-- The same URL written with an explicit scheme. -/
def rawHttpUrl : String := "http://x.com/a.png"

/-- A sample stored file path. -/
def storedPathSample : String := "/content/images/a.png"

/-- Fetch-and-store oracle that always succeeds with `storedPathSample`. -/
def fetchStoreSample : String → Option String := fun _ => some storedPathSample

/-- C6 counterexample content. -/
def c6Content : String := "aXb"

/-- C6 counterexample source URL (one character, for readability). -/
def c6Src : String := "X"

/-- C6 counterexample stored path containing a replacement-pattern escape. -/
def c6Path : String := "$&!"

/-- What claim C6 predicts for the rewrite. -/
def c6ClaimedResult : String := "a__GHOST_URL__$&!b"

/-- What the code actually produces (the `$&` emitted the matched text). -/
def c6ActualResult : String := "a__GHOST_URL__X!b"

/-- C6 witness content with two occurrences. -/
def c6GoodContent : String := "qXrXs"

/-- C6 witness stored path free of `$`. -/
def c6GoodPath : String := "pic.png"

/-- The part of `c6Content` before the single source occurrence. -/
def c6BeforePart : String := "a"

/-- The part of `c6Content` after the single source occurrence. -/
def c6AfterPart : String := "b"

/-- C7 failing input: the last path segment contains an earlier wildcard
match `ypng` before the trailing `.png`. -/
def c7RequestURL : String := "https://cdn.example.com/mypngfile.png"

/-- C7 extension as detected by the surrounding code. -/
def c7Ext : String := "png"

/-- What the code produces for the C7 failing input. -/
def c7CodeResult : String := "mfile.png"

/-- What claim C7 predicts (strip only the trailing `.png`). -/
def c7ClaimResult : String := "mypngfile"

/-- C8 counterexample content: a comma followed by `httpz` then a quote. -/
def c8Content : String := "https://a.com/x,httpz\""

/-- C8 counterexample domain. -/
def c8Domain : String := "https://a.com"

/-- The match the code produces (stops at the `,http` lookahead). -/
def c8CodeMatch : String := "https://a.com/x"

/-- The match the claim predicts (`,httpz` is not followed by `://`). -/
def c8ClaimMatch : String := "https://a.com/x,httpz"

/-- A constant state sequence in which every poll sees the empty state. -/
def constEmptyStates : Nat → QMState := fun _ => emptyQMState

/-- An `InlinerConfig` with every field absent. -/
def inlinerConfigAllAbsent : InlinerConfig :=
  { baseWaitOnRetry := none
    cacheTTL := none
    defaultRequestInterval := none
    maxConcurrentRequestsPerDomain := none
    maxRequestInterval := none
    maxRetries := none
    minExpectedResponseTime := none
    minRequestInterval := none
    retryableStatusCodes := none }

/-! # Theorems -/

/-- C9: the service layer builds every numeric queue option with the
truthiness fallback `config value || default`, so a configured `0` is
replaced by the built-in default — a configured `maxRetries` of 0 becomes
3 and a configured `minRequestInterval` of 0 becomes 2000 — and no
configuration can make the built `maxRetries` equal to 0, so the
`maxRetries = 0` retry-disabling behaviour is unreachable through the
configuration surface. -/
theorem c9_truthy_config_fallback :
    (∀ cfg : InlinerConfig,
      (buildQueueOptions (some { cfg with maxRetries := some 0 })).maxRetries = 3 ∧
      (buildQueueOptions (some { cfg with minRequestInterval := some 0 })).minRequestInterval = 2000) ∧
    (∀ cfg : Option InlinerConfig, (buildQueueOptions cfg).maxRetries ≠ 0) := by
  refine ⟨fun cfg => ⟨rfl, rfl⟩, ?_⟩
  intro cfg
  rcases cfg with _ | c
  · simp [buildQueueOptions, jsOrNum, chain]
  · simp only [buildQueueOptions, jsOrNum, chain]
    rcases c.maxRetries with _ | x
    · simp
    · by_cases hx : x = 0 <;> simp [hx]

/-- Witness for C9 at a concrete configuration. -/
theorem c9_truthy_config_fallback_witness :
    (buildQueueOptions (some { inlinerConfigAllAbsent with maxRetries := some 0 })).maxRetries = 3 ∧
    (buildQueueOptions (some { inlinerConfigAllAbsent with minRequestInterval := some 0 })).minRequestInterval = 2000 ∧
    (buildQueueOptions none).maxRetries ≠ 0 :=
  ⟨(c9_truthy_config_fallback.1 inlinerConfigAllAbsent).1,
    (c9_truthy_config_fallback.1 inlinerConfigAllAbsent).2,
    c9_truthy_config_fallback.2 none⟩

/-- C2: `waitForAllQueues` polls every `waitPollIntervalMs = 100` ms and
resolves only at a poll where `areAllQueuesEmpty()` holds and every
per-host active-request count is 0; hence at the resolving poll every
per-host queue is empty and every active count is 0. -/
theorem c2_waitForAllQueues_barrier (states : Nat → QMState) (n : Nat)
    (h : waitForAllQueuesResolvesAt states n) :
    (∀ d q, (d, q) ∈ (states n).requestQueues → q = []) ∧
    (∀ d c, (d, c) ∈ (states n).activeRequests → c = 0) ∧
    waitPollIntervalMs = 100 := by
  obtain ⟨hpass, -⟩ := h
  unfold waitCheckPasses at hpass
  rw [Bool.and_eq_true] at hpass
  obtain ⟨hq, ha⟩ := hpass
  refine ⟨?_, ?_, rfl⟩
  · intro d q hmem
    unfold areAllQueuesEmpty at hq
    rw [List.all_eq_true] at hq
    have hval := hq (d, q) hmem
    by_cases hl : q.length > 0
    · simp [hl] at hval
    · exact List.length_eq_zero.mp (by omega)
  · intro d c hmem
    unfold allActiveCountsZero at ha
    rw [List.all_eq_true] at ha
    have hval := ha (d, c) hmem
    simpa using hval

/-- Witness for C2: the constant empty state sequence resolves at poll 0
with empty queues and zero counts. -/
theorem c2_waitForAllQueues_barrier_witness :
    (∀ d q, (d, q) ∈ (constEmptyStates 0).requestQueues → q = []) ∧
    (∀ d c, (d, c) ∈ (constEmptyStates 0).activeRequests → c = 0) ∧
    waitPollIntervalMs = 100 :=
  c2_waitForAllQueues_barrier constEmptyStates 0
    ⟨by decide, fun m hm => absurd hm (Nat.not_lt_zero m)⟩

/-- C10: when the URL parser rejects the string handed to `queueRequest`,
the promise is rejected with the Invalid URL error and the function
returns with the three per-host maps untouched, so `areAllQueuesEmpty`
and the `waitForAllQueues` check are unaffected. -/
theorem c10_invalid_url_leaves_state_untouched
    (parseHostname : String → Option String) (st : QMState) (url : String) (freshId : Nat)
    (h : parseHostname url = none) :
    queueRequest parseHostname st url freshId = (st, .rejectedInvalidUrl url) ∧
    areAllQueuesEmpty (queueRequest parseHostname st url freshId).1 = areAllQueuesEmpty st ∧
    waitCheckPasses (queueRequest parseHostname st url freshId).1 = waitCheckPasses st := by
  have h1 : queueRequest parseHostname st url freshId = (st, .rejectedInvalidUrl url) := by
    unfold queueRequest
    rw [h]
  exact ⟨h1, by rw [h1], by rw [h1]⟩

/-- Witness for C10 at a concrete rejecting parser and state. -/
theorem c10_invalid_url_leaves_state_untouched_witness :
    queueRequest parseHostnameNone emptyQMState invalidUrlSample 0 =
      (emptyQMState, .rejectedInvalidUrl invalidUrlSample) ∧
    areAllQueuesEmpty (queueRequest parseHostnameNone emptyQMState invalidUrlSample 0).1 =
      areAllQueuesEmpty emptyQMState ∧
    waitCheckPasses (queueRequest parseHostnameNone emptyQMState invalidUrlSample 0).1 =
      waitCheckPasses emptyQMState :=
  c10_invalid_url_leaves_state_untouched parseHostnameNone emptyQMState invalidUrlSample 0 rfl

/-- C4 counterexample: the claimed interval invariant fails on reachable
states for two configurations with `minRequestInterval ≤
maxRequestInterval`.  With configured minimum 12000, a first-contact 429
penalty (interval 10000) followed by one slow success leaves the interval
at 11000 — below the configured minimum yet not equal to 10000.  With
configured maximum 40000, thirty-two slow successes with success jitter
1.6 drive the interval to 2000·1.1³² ≈ 42228 > max(30000, 40000). -/
theorem c4_claimed_invariant_counterexample :
    (qmC4Low.minRequestInterval ≤ qmC4Low.maxRequestInterval ∧
      validAdaptEvents c4EventsLow ∧
      ¬ c4ClaimedInvariant qmC4Low (runAdapt qmC4Low c4EventsLow)) ∧
    (qmC4High.minRequestInterval ≤ qmC4High.maxRequestInterval ∧
      validAdaptEvents c4EventsHigh ∧
      ¬ c4ClaimedInvariant qmC4High (runAdapt qmC4High c4EventsHigh)) := by
  refine ⟨⟨by norm_num [qmC4Low], ?_, ?_⟩, ⟨by norm_num [qmC4High], ?_, ?_⟩⟩
  · intro ev hev
    simp [c4EventsLow] at hev
    rcases hev with h | h <;> simp [h, validAdaptEvent]
  · norm_num [c4ClaimedInvariant, runAdapt, c4EventsLow, adaptStep, domainStatsOnError,
      domainStatsOnSuccess, initialDomainStats, successJitter, statusIsRetryable, getStatusCode,
      responseStatusOf, errorWith429, qmC4Low, defaultRetryableStatusCodes, min_def, max_def]
  · intro ev hev
    rw [c4EventsHigh, List.mem_replicate] at hev
    rw [hev.2]
    refine ⟨by norm_num, by norm_num⟩
  · norm_num [c4ClaimedInvariant, runAdapt, c4EventsHigh, List.replicate, adaptStep,
      domainStatsOnSuccess, initialDomainStats, successJitter, qmC4High, min_def, max_def]

/-- C3: `makeRequestWithRetry` performs the HTTP request and returns its
response on success; on an error whose extracted status code is retryable
while the attempt counter is strictly below the effective `maxRetries`, it
sleeps `floor(baseWaitOnRetry * (attempt + 1) * jitter)` ms — where the
jitter `1 + (0.15 + u * 0.35)` lies in `[1.15, 1.5)` for every draw
`u ∈ [0,1)` — and recurses with `attempt + 1`; otherwise it propagates the
error.  With `maxRetries = 0`, and likewise for a non-retryable status,
exactly one attempt is performed (no sleeps are recorded). -/
theorem c3_makeRequestWithRetry_spec :
    (∀ qm attempts jitterU M k r, attempts k = .ok r →
      makeRequestWithRetry qm attempts jitterU M k = (.ok r, [])) ∧
    (∀ qm attempts jitterU M k e, attempts k = .error e →
      statusIsRetryable qm.retryableStatusCodes (getStatusCode e) = true → k < M →
      makeRequestWithRetry qm attempts jitterU M k =
        ((makeRequestWithRetry qm attempts jitterU M (k + 1)).1,
          Int.floor (qm.baseWaitOnRetry * (k + 1) * retryJitter (jitterU k)) ::
            (makeRequestWithRetry qm attempts jitterU M (k + 1)).2)) ∧
    (∀ qm attempts jitterU M k e, attempts k = .error e →
      ¬(statusIsRetryable qm.retryableStatusCodes (getStatusCode e) = true ∧ k < M) →
      makeRequestWithRetry qm attempts jitterU M k = (.error e, [])) ∧
    (∀ qm attempts jitterU k, (makeRequestWithRetry qm attempts jitterU 0 k).2 = []) ∧
    (∀ qm attempts jitterU M k e, attempts k = .error e →
      statusIsRetryable qm.retryableStatusCodes (getStatusCode e) = false →
      makeRequestWithRetry qm attempts jitterU M k = (.error e, [])) ∧
    (∀ u : ℚ, 0 ≤ u → u < 1 → 1.15 ≤ retryJitter u ∧ retryJitter u < 1.5) := by
  have hok : ∀ (qm : QueueManager) attempts jitterU M k r, attempts k = .ok r →
      makeRequestWithRetry qm attempts jitterU M k = (.ok r, []) := by
    intro qm attempts jitterU M k r h
    rw [makeRequestWithRetry, h]
  have hretry : ∀ (qm : QueueManager) attempts jitterU M k e, attempts k = .error e →
      statusIsRetryable qm.retryableStatusCodes (getStatusCode e) = true → k < M →
      makeRequestWithRetry qm attempts jitterU M k =
        ((makeRequestWithRetry qm attempts jitterU M (k + 1)).1,
          Int.floor (qm.baseWaitOnRetry * (k + 1) * retryJitter (jitterU k)) ::
            (makeRequestWithRetry qm attempts jitterU M (k + 1)).2) := by
    intro qm attempts jitterU M k e h h1 h2
    rw [makeRequestWithRetry, h]
    dsimp only
    rw [dif_pos ⟨h1, h2⟩]
  have hprop : ∀ (qm : QueueManager) attempts jitterU M k e, attempts k = .error e →
      ¬(statusIsRetryable qm.retryableStatusCodes (getStatusCode e) = true ∧ k < M) →
      makeRequestWithRetry qm attempts jitterU M k = (.error e, []) := by
    intro qm attempts jitterU M k e h hn
    rw [makeRequestWithRetry, h]
    dsimp only
    rw [dif_neg hn]
  refine ⟨hok, hretry, hprop, ?_, ?_, ?_⟩
  · intro qm attempts jitterU k
    cases h : attempts k with
    | ok r => rw [hok qm attempts jitterU 0 k r h]
    | error e =>
      rw [hprop qm attempts jitterU 0 k e h (by omega)]
  · intro qm attempts jitterU M k e h h1
    exact hprop qm attempts jitterU M k e h (by simp [h1])
  · intro u h0 h1
    unfold retryJitter
    constructor <;> nlinarith

/-- Witness for C3: with the default settings, a 429 on attempt 0 and a
zero jitter draw, the first retry sleeps `floor(3000 * 1 * 1.15) = 3450`
ms, and the recursion at attempt 1 succeeds. -/
theorem c3_makeRequestWithRetry_spec_witness :
    makeRequestWithRetry qmSample attempts429ThenOk zeroJitterU 3 0 =
      ((makeRequestWithRetry qmSample attempts429ThenOk zeroJitterU 3 1).1,
        Int.floor (qmSample.baseWaitOnRetry * (0 + 1) * retryJitter (zeroJitterU 0)) ::
          (makeRequestWithRetry qmSample attempts429ThenOk zeroJitterU 3 1).2) ∧
    makeRequestWithRetry qmSample attempts429ThenOk zeroJitterU 3 1 = (.ok sampleOkBody, []) :=
  ⟨c3_makeRequestWithRetry_spec.2.1 qmSample attempts429ThenOk zeroJitterU 3 0 errorWith429
      rfl (by decide) (by omega),
    c3_makeRequestWithRetry_spec.1 qmSample attempts429ThenOk zeroJitterU 3 1 sampleOkBody rfl⟩

/-- One adaptation step preserves the interval bounds
`min(configured min, 10000) ≤ interval ≤ max(30000, 1.7 * configured max)`. -/
theorem adaptStep_interval_bounds (qm : QueueManager) (ds : DomainStats) (ev : AdaptEvent)
    (h0 : 0 ≤ qm.minRequestInterval)
    (hminmax : qm.minRequestInterval ≤ qm.maxRequestInterval)
    (hev : validAdaptEvent ev)
    (hl : min qm.minRequestInterval 10000 ≤ ds.minRequestInterval)
    (hu : ds.minRequestInterval ≤ max 30000 (1.7 * qm.maxRequestInterval)) :
    min qm.minRequestInterval 10000 ≤ (adaptStep qm ds ev).minRequestInterval ∧
      (adaptStep qm ds ev).minRequestInterval ≤ max 30000 (1.7 * qm.maxRequestInterval) := by
  have hminL := min_le_left qm.minRequestInterval (10000:ℚ)
  have h10L := min_le_right qm.minRequestInterval (10000:ℚ)
  have hL0 : (0:ℚ) ≤ min qm.minRequestInterval 10000 := le_min h0 (by norm_num)
  have hds0 : (0:ℚ) ≤ ds.minRequestInterval := le_trans hL0 hl
  have hmax0 : (0:ℚ) ≤ qm.maxRequestInterval := le_trans h0 hminmax
  have h17B := le_max_right (30000:ℚ) (1.7 * qm.maxRequestInterval)
  have h30B := le_max_left (30000:ℚ) (1.7 * qm.maxRequestInterval)
  cases ev with
  | success fast u =>
    obtain ⟨hu0, hu1⟩ : (0:ℚ) ≤ u ∧ u < 1 := hev
    have hj1 : (1:ℚ) ≤ successJitter u := by unfold successJitter; nlinarith
    have hj17 : successJitter u ≤ 1.7 := by unfold successJitter; nlinarith
    cases fast with
    | true =>
      simp only [adaptStep, domainStatsOnSuccess, if_true]
      constructor
      · exact le_trans (le_trans hminL (by nlinarith)) (le_max_left _ _)
      · apply max_le
        · exact le_trans (by nlinarith :
            qm.minRequestInterval * successJitter u ≤ 1.7 * qm.maxRequestInterval) h17B
        · exact le_trans (by nlinarith : ds.minRequestInterval * 0.95 ≤ ds.minRequestInterval) hu
    | false =>
      simp only [adaptStep, domainStatsOnSuccess, if_false]
      constructor
      · apply le_min
        · exact le_trans hminL (le_trans hminmax (by nlinarith))
        · nlinarith
      · exact le_trans (min_le_left _ _) (le_trans (by nlinarith :
          qm.maxRequestInterval * successJitter u ≤ 1.7 * qm.maxRequestInterval) h17B)
  | failure e =>
    simp only [adaptStep, domainStatsOnError]
    cases hb : statusIsRetryable qm.retryableStatusCodes (getStatusCode e) with
    | true =>
      rw [if_pos rfl]
      by_cases hsc : ds.successCount = 0
      · rw [if_pos hsc]
        exact ⟨h10L, le_trans (by norm_num) h30B⟩
      · rw [if_neg hsc]
        constructor
        · exact le_min (le_trans h10L (by norm_num)) (by nlinarith)
        · exact le_trans (min_le_left _ _) h30B
    | false =>
      rw [if_neg Bool.false_ne_true]
      by_cases hce : ds.consecutiveErrors + 1 ≥ 2
      · rw [if_pos hce]
        constructor
        · exact le_min (le_trans hminL hminmax) (by nlinarith)
        · exact le_trans (min_le_left _ _) (le_trans (by nlinarith) h17B)
      · rw [if_neg hce]
        by_cases hsc : ds.successCount = 0
        · rw [if_pos ⟨Nat.succ_pos ds.errorCount, hsc⟩]
          constructor
          · exact le_min (le_trans hminL hminmax) (by nlinarith)
          · exact le_trans (min_le_left _ _) (le_trans (by nlinarith) h17B)
        · rw [if_neg fun hand => hsc hand.2]
          exact ⟨hl, hu⟩

/-- C4 amended: for arbitrary constructor parameters with
`0 ≤ minRequestInterval ≤ defaultRequestInterval ≤ maxRequestInterval`,
every reachable per-host interval (any interleaving of the
success-adaptation, error-adaptation and rate-limit-penalty updates with
valid random draws) satisfies
`min(configured minRequestInterval, 10000) ≤ minRequestInterval[h] ≤
max(30000, 1.7 * configured maxRequestInterval)`: after a first-contact
rate-limit penalty the interval may sit strictly between 10000 and the
configured minimum, and slow-response jitter may push it up to 1.7 times
the configured maximum. -/
theorem c4_interval_bounds_amended (qm : QueueManager)
    (h0 : 0 ≤ qm.minRequestInterval)
    (h1 : qm.minRequestInterval ≤ qm.defaultRequestInterval)
    (h2 : qm.defaultRequestInterval ≤ qm.maxRequestInterval)
    (evs : List AdaptEvent) (hv : validAdaptEvents evs) :
    min qm.minRequestInterval 10000 ≤ (runAdapt qm evs).minRequestInterval ∧
      (runAdapt qm evs).minRequestInterval ≤ max 30000 (1.7 * qm.maxRequestInterval) := by
  have hmax0 : (0:ℚ) ≤ qm.maxRequestInterval := le_trans h0 (le_trans h1 h2)
  have hmain : ∀ (l : List AdaptEvent) (ds : DomainStats), validAdaptEvents l →
      min qm.minRequestInterval 10000 ≤ ds.minRequestInterval →
      ds.minRequestInterval ≤ max 30000 (1.7 * qm.maxRequestInterval) →
      min qm.minRequestInterval 10000 ≤ (l.foldl (adaptStep qm) ds).minRequestInterval ∧
        (l.foldl (adaptStep qm) ds).minRequestInterval ≤ max 30000 (1.7 * qm.maxRequestInterval) := by
    intro l
    induction l with
    | nil => intro ds _ hL hU; exact ⟨hL, hU⟩
    | cons ev rest ih =>
      intro ds hvl hL hU
      have hev : validAdaptEvent ev := hvl ev (List.mem_cons_self ev rest)
      have hrest : validAdaptEvents rest := fun x hx => hvl x (List.mem_cons_of_mem ev hx)
      obtain ⟨hL', hU'⟩ := adaptStep_interval_bounds qm ds ev h0 (le_trans h1 h2) hev hL hU
      exact ih (adaptStep qm ds ev) hrest hL' hU'
  unfold runAdapt
  apply hmain evs (initialDomainStats qm) hv
  · simpa [initialDomainStats] using le_trans (min_le_left qm.minRequestInterval 10000) h1
  · simpa [initialDomainStats] using
      le_trans h2 (le_trans (by nlinarith : qm.maxRequestInterval ≤ 1.7 * qm.maxRequestInterval)
        (le_max_right (30000:ℚ) (1.7 * qm.maxRequestInterval)))

/-- Witness for the amended C4 at the counterexample configuration and
history: the bounds hold at the state the original claim fails on. -/
theorem c4_interval_bounds_amended_witness :
    min qmC4Low.minRequestInterval 10000 ≤ (runAdapt qmC4Low c4EventsLow).minRequestInterval ∧
      (runAdapt qmC4Low c4EventsLow).minRequestInterval ≤
        max 30000 (1.7 * qmC4Low.maxRequestInterval) :=
  c4_interval_bounds_amended qmC4Low (by norm_num [qmC4Low]) (by norm_num [qmC4Low])
    (by norm_num [qmC4Low]) c4EventsLow
    (by
      intro ev hev
      simp [c4EventsLow] at hev
      rcases hev with h | h <;> simp [h, validAdaptEvent])

/-- The settlement carries the id of the item it settles. -/
theorem settlementId_settleItem (qm : QueueManager) (a : Nat → Nat → Except JsError String)
    (j : Nat → Nat → ℚ) (x : PendingRequest) :
    settlementId (settleItem qm a j x) = x.id := by
  unfold settleItem
  cases (makeRequestWithRetry qm (a x.id) (j x.id) qm.maxRetries 0).1 <;> rfl

/-- Characterization of a dispatch run: with `t` effective (gated)
invocations, the first `min t |q|` items are removed from the queue, each
appending its single settlement to the log in order. -/
theorem runDispatch_eq (qm : QueueManager) (a : Nat → Nat → Except JsError String)
    (j : Nat → Nat → ℚ) (gates : List Bool) (q : List PendingRequest) (log : List Settlement) :
    runDispatch qm a j gates (q, log) =
      (q.drop (min (gates.count true) q.length),
        log ++ (q.take (min (gates.count true) q.length)).map (settleItem qm a j)) := by
  induction gates generalizing q log with
  | nil => simp [runDispatch]
  | cons g gs ih =>
    have hstep : runDispatch qm a j (g :: gs) (q, log) =
        runDispatch qm a j gs (dispatchStep qm a j (q, log) g) := rfl
    cases g with
    | false =>
      rw [hstep]
      have : dispatchStep qm a j (q, log) false = (q, log) := rfl
      rw [this, ih]
      simp [List.count_cons]
    | true =>
      rw [hstep]
      cases q with
      | nil =>
        have : dispatchStep qm a j (([] : List PendingRequest), log) true = ([], log) := rfl
        rw [this, ih]
        simp
      | cons item rest =>
        have : dispatchStep qm a j (item :: rest, log) true =
            (rest, log ++ [settleItem qm a j item]) := rfl
        rw [this, ih]
        have hminEq : List.count true (true :: gs) ⊓ (item :: rest).length
            = (List.count true gs ⊓ rest.length) + 1 := by
          simp [List.count_cons]
          omega
        rw [hminEq, List.drop_succ_cons, List.take_succ_cons]
        simp [List.append_assoc]

/-- No settlement in the log of items whose ids all differ from `i`. -/
theorem settleFilter_eq_nil (qm : QueueManager) (a : Nat → Nat → Except JsError String)
    (j : Nat → Nat → ℚ) (i : Nat) (q : List PendingRequest) (h : ∀ y ∈ q, y.id ≠ i) :
    (q.map (settleItem qm a j)).filter (fun s => settlementId s == i) = [] := by
  induction q with
  | nil => rfl
  | cons x xs ih =>
    have hx : x.id ≠ i := h x (List.mem_cons_self x xs)
    have hxs : ∀ y ∈ xs, y.id ≠ i := fun y hy => h y (List.mem_cons_of_mem x hy)
    simp only [List.map_cons, List.filter_cons, settlementId_settleItem]
    rw [if_neg (by simpa using hx)]
    exact ih hxs

/-- With pairwise-distinct item ids, the log of a fully settled queue
contains exactly the settlement of each member. -/
theorem settleFilter_eq_single (qm : QueueManager) (a : Nat → Nat → Except JsError String)
    (j : Nat → Nat → ℚ) (item : PendingRequest) (q : List PendingRequest)
    (hnodup : (q.map PendingRequest.id).Nodup) (hmem : item ∈ q) :
    (q.map (settleItem qm a j)).filter (fun s => settlementId s == item.id) =
      [settleItem qm a j item] := by
  induction q with
  | nil => cases hmem
  | cons x xs ih =>
    rw [List.map_cons, List.nodup_cons] at hnodup
    obtain ⟨hxid, hxs⟩ := hnodup
    rcases List.mem_cons.mp hmem with rfl | hmemtl
    · simp only [List.map_cons, List.filter_cons, settlementId_settleItem]
      rw [if_pos (by simp)]
      have : ∀ y ∈ xs, y.id ≠ item.id := by
        intro y hy he
        exact hxid (he ▸ List.mem_map_of_mem PendingRequest.id hy)
      rw [settleFilter_eq_nil qm a j item.id xs this]
    · have hxne : x.id ≠ item.id := by
        intro he
        exact hxid (he ▸ List.mem_map_of_mem PendingRequest.id hmemtl)
      simp only [List.map_cons, List.filter_cons, settlementId_settleItem]
      rw [if_neg (by simpa using hxne)]
      exact ih hxs hmemtl

/-- C1: over any interleaving of `processQueue` invocations (any gate
sequence), an item enqueued once — its sink identity distinct from all
others in the per-host queue — is settled at most once; as soon as at
least `|queue|` invocations get past the guards it is settled exactly
once, and that single settlement resolves with the response of
`makeRequestWithRetry` when it returns a response, or rejects with its
error when it throws — never both, regardless of the retries performed
inside the dispatch slot. -/
theorem c1_completion_sink_settled_once (qm : QueueManager)
    (attemptsFor : Nat → Nat → Except JsError String) (jitterUFor : Nat → Nat → ℚ)
    (gates : List Bool) (q0 : List PendingRequest) (item : PendingRequest)
    (hnodup : (q0.map PendingRequest.id).Nodup) (hmem : item ∈ q0) :
    ((runDispatch qm attemptsFor jitterUFor gates (q0, [])).2.filter
        (fun s => settlementId s == item.id)).length ≤ 1 ∧
    (q0.length ≤ gates.count true →
      (runDispatch qm attemptsFor jitterUFor gates (q0, [])).2.filter
        (fun s => settlementId s == item.id) = [settleItem qm attemptsFor jitterUFor item]) ∧
    (∀ r, (makeRequestWithRetry qm (attemptsFor item.id) (jitterUFor item.id) qm.maxRetries 0).1
        = .ok r →
      settleItem qm attemptsFor jitterUFor item = .resolved item.id r) ∧
    (∀ e, (makeRequestWithRetry qm (attemptsFor item.id) (jitterUFor item.id) qm.maxRetries 0).1
        = .error e →
      settleItem qm attemptsFor jitterUFor item = .rejected item.id e) := by
  have hchar := runDispatch_eq qm attemptsFor jitterUFor gates q0 []
  refine ⟨?_, ?_, ?_, ?_⟩
  · rw [hchar]
    simp only [List.nil_append]
    set n := min (gates.count true) q0.length with hn
    by_cases hin : item ∈ q0.take n
    · have htknd : ((q0.take n).map PendingRequest.id).Nodup := by
        rw [List.map_take]
        exact hnodup.sublist (List.take_sublist n (q0.map PendingRequest.id))
      rw [settleFilter_eq_single qm attemptsFor jitterUFor item (q0.take n) htknd hin]
      norm_num
    · have hne : ∀ y ∈ q0.take n, y.id ≠ item.id := by
        intro y hy he
        have hydrop : item ∈ q0.drop n := by
          rcases (List.mem_append.mp ((List.take_append_drop n q0).symm ▸ hmem)) with h | h
          · exact absurd h hin
          · exact h
        have hnd := hnodup
        rw [← List.take_append_drop n q0, List.map_append, List.nodup_append] at hnd
        have h2 : y.id ∈ List.map PendingRequest.id (List.drop n q0) := by
          rw [he]
          exact List.mem_map_of_mem PendingRequest.id hydrop
        exact hnd.2.2 (List.mem_map_of_mem PendingRequest.id hy) h2
      rw [settleFilter_eq_nil qm attemptsFor jitterUFor item.id (q0.take n) hne]
      norm_num
  · intro hge
    rw [hchar]
    simp only [List.nil_append]
    rw [min_eq_right hge, List.take_length]
    exact settleFilter_eq_single qm attemptsFor jitterUFor item q0 hnodup hmem
  · intro r h
    unfold settleItem
    rw [h]
  · intro e h
    unfold settleItem
    rw [h]

/-- Witness for C1 at a concrete queue of two items and a gate sequence
with two effective dispatches. -/
theorem c1_completion_sink_settled_once_witness :
    ((runDispatch qmSample attemptsForSample zeroJitterUFor sampleGates (sampleQueue, [])).2.filter
        (fun s => settlementId s == (⟨1, sampleUrlA⟩ : PendingRequest).id)).length ≤ 1 ∧
    (sampleQueue.length ≤ sampleGates.count true →
      (runDispatch qmSample attemptsForSample zeroJitterUFor sampleGates (sampleQueue, [])).2.filter
        (fun s => settlementId s == (⟨1, sampleUrlA⟩ : PendingRequest).id) =
        [settleItem qmSample attemptsForSample zeroJitterUFor ⟨1, sampleUrlA⟩]) ∧
    (∀ r, (makeRequestWithRetry qmSample (attemptsForSample (⟨1, sampleUrlA⟩ : PendingRequest).id)
        (zeroJitterUFor (⟨1, sampleUrlA⟩ : PendingRequest).id) qmSample.maxRetries 0).1 = .ok r →
      settleItem qmSample attemptsForSample zeroJitterUFor ⟨1, sampleUrlA⟩ =
        .resolved (⟨1, sampleUrlA⟩ : PendingRequest).id r) ∧
    (∀ e, (makeRequestWithRetry qmSample (attemptsForSample (⟨1, sampleUrlA⟩ : PendingRequest).id)
        (zeroJitterUFor (⟨1, sampleUrlA⟩ : PendingRequest).id) qmSample.maxRetries 0).1 = .error e →
      settleItem qmSample attemptsForSample zeroJitterUFor ⟨1, sampleUrlA⟩ =
        .rejected (⟨1, sampleUrlA⟩ : PendingRequest).id e) :=
  c1_completion_sink_settled_once qmSample attemptsForSample zeroJitterUFor sampleGates
    sampleQueue ⟨1, sampleUrlA⟩ (by decide) (by decide)

/-- `Map.get` after `Map.set` of the same key returns the set value. -/
theorem mapGet_mapSet_self {α : Type} (m : List (String × α)) (k : String) (v : α) :
    mapGet (mapSet m k v) k = some v := by
  induction m with
  | nil => simp [mapSet, mapGet]
  | cons p rest ih =>
    by_cases h : p.1 = k
    · simp [mapSet, mapGet, h]
    · simp [mapSet, mapGet, h, ih]

/-- After a content-path step that produced a file path, the cache maps the
normalized source to that path (either it already did, or the step stored
it). -/
theorem contentStep_cache_lookup (f : String → Option String) (cache : List (String × String))
    (src p : String) (h : (inlineContentUrlStep f cache src).filePath = some p) :
    mapGet (inlineContentUrlStep f cache src).cache (inlineContentNormalizedSrc src) = some p := by
  simp only [inlineContentUrlStep] at h ⊢
  revert h
  cases hc : mapGet cache (inlineContentNormalizedSrc src) with
  | some q =>
    intro h
    have h' : some q = some p := h
    show mapGet cache (inlineContentNormalizedSrc src) = some p
    rw [hc]
    exact h'
  | none =>
    cases hf : f src with
    | some q =>
      intro h
      have h' : some q = some p := h
      show mapGet (mapSet cache (inlineContentNormalizedSrc src) q)
        (inlineContentNormalizedSrc src) = some p
      rw [mapGet_mapSet_self]
      exact h'
    | none =>
      intro h
      exact absurd (h : (none : Option String) = some p) (by simp)

/-- A fields-path step whose normalized source is already cached returns
the cached path without fetching and leaves the cache unchanged. -/
theorem fieldsStep_cache_hit (f : String → Option String) (cache : List (String × String))
    (b p : String) (h : mapGet cache (inlineFieldsNormalizedSrc b) = some p) :
    inlineFieldsUrlStep f cache b = { cache := cache, filePath := some p, fetchCount := 0 } := by
  simp only [inlineFieldsUrlStep]
  rw [h]

/-- C5: `getRemoteMedia`, `inlineContent` and `inlineFields` key the cache
and the fetch on the identical normalized string
`encodeURI(raw.replace(/^\/\//, 'http://'))`; consequently, once a
content-body encounter of `a` has produced a stored path `p`, a later
scalar-field encounter of any `b` normalizing to the same string finds `p`
in the shared cache: same cache entry, same stored path, and no second
fetch+store. -/
theorem c5_normalization_agreement :
    (∀ s : String, getRemoteMediaNormalizedUrl s = inlineContentNormalizedSrc s ∧
      inlineContentNormalizedSrc s = inlineFieldsNormalizedSrc s) ∧
    (∀ (fetchStore : String → Option String) (cache : List (String × String)) (a b p : String),
      inlineContentNormalizedSrc a = inlineFieldsNormalizedSrc b →
      (inlineContentUrlStep fetchStore cache a).filePath = some p →
      inlineFieldsUrlStep fetchStore (inlineContentUrlStep fetchStore cache a).cache b =
        { cache := (inlineContentUrlStep fetchStore cache a).cache
          filePath := some p
          fetchCount := 0 }) := by
  refine ⟨fun s => ⟨rfl, rfl⟩, ?_⟩
  intro f cache a b p hnorm hres
  have hlook := contentStep_cache_lookup f cache a p hres
  rw [hnorm] at hlook
  exact fieldsStep_cache_hit f (inlineContentUrlStep f cache a).cache b p hlook

/-- Witness for C5: the protocol-relative `//x.com/a.png` (seen in a
content body) and the explicit `http://x.com/a.png` (seen in a scalar
field) normalize identically; after the first produces a stored path the
second is served from the cache with no fetch. -/
theorem c5_normalization_agreement_witness :
    inlineContentNormalizedSrc rawProtoRelUrl = inlineFieldsNormalizedSrc rawHttpUrl ∧
    inlineFieldsUrlStep fetchStoreSample
        (inlineContentUrlStep fetchStoreSample [] rawProtoRelUrl).cache rawHttpUrl =
      { cache := (inlineContentUrlStep fetchStoreSample [] rawProtoRelUrl).cache
        filePath := some storedPathSample
        fetchCount := 0 } :=
  ⟨by decide,
    c5_normalization_agreement.2 fetchStoreSample [] rawProtoRelUrl rawHttpUrl storedPathSample
      (by decide) (by decide)⟩

/-- C7 (evaluation of the code at the failing input): for the request URL
`https://cdn.example.com/mypngfile.png` with detected extension `png`, the
unescaped, unanchored `new RegExp('.' + extension)` of line 386 matches the
earlier substring `ypng` instead of the trailing `.png`, so line 387
produces `mfile.png` rather than the `mypngfile` the claim prescribes. -/
theorem c7_first_wildcard_match_removed :
    fileNameNoExtOf c7RequestURL.toList c7Ext.toList = c7CodeResult.toList ∧
    c7CodeResult.toList ≠ c7ClaimResult.toList :=
  ⟨by decide, by decide⟩

/-! ### Lemmas about literal prefix testing and leftmost splitting -/

/-- A nonempty pattern is not a prefix of the empty string. -/
theorem isPrefixOf_nil_false (pat : List Char) (h : pat ≠ []) :
    pat.isPrefixOf ([] : List Char) = false := by
  cases pat with
  | nil => exact absurd rfl h
  | cons c cs => rfl

/-- A successful prefix test decomposes the string. -/
theorem eq_append_of_isPrefixOf :
    ∀ (pat s : List Char), pat.isPrefixOf s = true → s = pat ++ s.drop pat.length := by
  intro pat
  induction pat with
  | nil =>
    intro s _
    simp
  | cons pc pcs ih =>
    intro s hp
    cases s with
    | nil => simp [List.isPrefixOf] at hp
    | cons c cs =>
      simp only [List.isPrefixOf, Bool.and_eq_true, beq_iff_eq] at hp
      obtain ⟨he, hrest⟩ := hp
      rw [List.length_cons, List.drop_succ_cons, he]
      exact congrArg (c :: ·) (ih cs hrest)

/-- Prefix tests extend along appends. -/
theorem isPrefixOf_append_left :
    ∀ (pat l t : List Char), pat.isPrefixOf l = true → pat.isPrefixOf (l ++ t) = true := by
  intro pat
  induction pat with
  | nil =>
    intro l t _
    cases l ++ t <;> rfl
  | cons pc pcs ih =>
    intro l t hp
    cases l with
    | nil => simp [List.isPrefixOf] at hp
    | cons c cs =>
      simp only [List.cons_append, List.isPrefixOf, Bool.and_eq_true, beq_iff_eq] at hp ⊢
      exact ⟨hp.1, ih cs t hp.2⟩

/-- `splitFirst` decomposes its input around the found occurrence. -/
theorem splitFirst_eq_append :
    ∀ (pat s b a : List Char), splitFirst pat s = some (b, a) → s = b ++ pat ++ a := by
  intro pat s
  induction s with
  | nil =>
    intro b a h
    cases pat with
    | nil =>
      simp [splitFirst, List.isPrefixOf] at h
      simp [h.1, h.2]
    | cons pc pcs => simp [splitFirst, List.isPrefixOf] at h
  | cons c t ih =>
    intro b a h
    simp only [splitFirst] at h
    by_cases hp : pat.isPrefixOf (c :: t) = true
    · rw [if_pos hp] at h
      simp only [Option.some.injEq, Prod.mk.injEq] at h
      obtain ⟨hb, ha⟩ := h
      rw [← hb, ← ha, List.nil_append]
      exact eq_append_of_isPrefixOf pat (c :: t) hp
    · rw [if_neg hp] at h
      cases hsp : splitFirst pat t with
      | none => rw [hsp] at h; simp at h
      | some pr =>
        obtain ⟨b', a'⟩ := pr
        rw [hsp] at h
        simp only [Option.map_some', Option.some.injEq, Prod.mk.injEq] at h
        obtain ⟨hb, ha⟩ := h
        rw [← hb, ← ha]
        simpa using ih b' a' hsp

/-- When `splitFirst` finds nothing, the pattern occurs at no offset. -/
theorem splitFirst_none_no_occurrence :
    ∀ (pat s : List Char), pat ≠ [] → splitFirst pat s = none →
      ∀ j, pat.isPrefixOf (s.drop j) = false := by
  intro pat s hpat
  induction s with
  | nil =>
    intro _ j
    rw [List.drop_nil]
    exact isPrefixOf_nil_false pat hpat
  | cons c t ih =>
    intro h j
    simp only [splitFirst] at h
    by_cases hp : pat.isPrefixOf (c :: t) = true
    · rw [if_pos hp] at h
      simp at h
    · rw [if_neg hp] at h
      have ht : splitFirst pat t = none := Option.map_eq_none'.mp h
      cases j with
      | zero =>
        rw [List.drop_zero]
        exact Bool.eq_false_iff.mpr hp
      | succ j' =>
        rw [List.drop_succ_cons]
        exact ih ht j'

/-- The before-part returned by `splitFirst` is shortest: no occurrence
starts strictly before it. -/
theorem splitFirst_minimal :
    ∀ (pat s b a : List Char), splitFirst pat s = some (b, a) →
      ∀ j, j < b.length → pat.isPrefixOf (s.drop j) = false := by
  intro pat s
  induction s with
  | nil =>
    intro b a h j hj
    cases pat with
    | nil =>
      simp [splitFirst, List.isPrefixOf] at h
      rw [h.1] at hj
      simp at hj
    | cons pc pcs => simp [splitFirst, List.isPrefixOf] at h
  | cons c t ih =>
    intro b a h j hj
    simp only [splitFirst] at h
    by_cases hp : pat.isPrefixOf (c :: t) = true
    · rw [if_pos hp] at h
      simp only [Option.some.injEq, Prod.mk.injEq] at h
      rw [← h.1] at hj
      simp at hj
    · rw [if_neg hp] at h
      cases hsp : splitFirst pat t with
      | none => rw [hsp] at h; simp at h
      | some pr =>
        obtain ⟨b', a'⟩ := pr
        rw [hsp] at h
        simp only [Option.map_some', Option.some.injEq, Prod.mk.injEq] at h
        obtain ⟨hb, ha⟩ := h
        cases j with
        | zero =>
          rw [List.drop_zero]
          exact Bool.eq_false_iff.mpr hp
        | succ j' =>
          rw [List.drop_succ_cons]
          apply ih b' a' hsp j'
          rw [← hb] at hj
          simpa using Nat.lt_of_succ_lt_succ hj

/-- The occurrence decomposition always has at least one part. -/
theorem splitOnOcc_ne_nil (pat : List Char) (fuel : Nat) (s : List Char) :
    splitOnOcc pat fuel s ≠ [] := by
  cases fuel with
  | zero => simp [splitOnOcc]
  | succ f =>
    simp only [splitOnOcc]
    cases hsp : splitFirst pat s <;> simp

/-- Unfolding `intercalateChars` over a cons with a nonempty tail. -/
theorem intercalateChars_cons (sep x : List Char) (xs : List (List Char)) (h : xs ≠ []) :
    intercalateChars sep (x :: xs) = x ++ sep ++ intercalateChars sep xs := by
  cases xs with
  | nil => exact absurd rfl h
  | cons y ys => rfl

/-- A replacement string without `$` passes through GetSubstitution
unchanged. -/
theorem jsGetSubstitution_no_dollar (m b a : List Char) :
    ∀ (repl : List Char), '$' ∉ repl → jsGetSubstitution m b a repl = repl := by
  intro repl
  induction repl with
  | nil => intro _; rfl
  | cons c rest ih =>
    intro h
    have hc : ¬ c = '$' := fun he => h (by rw [he]; exact List.mem_cons_self _ _)
    have hr : '$' ∉ rest := fun hm => h (List.mem_cons_of_mem c hm)
    cases rest with
    | nil => simp [jsGetSubstitution, hc]
    | cons d rest2 =>
      have step : jsGetSubstitution m b a (c :: d :: rest2) =
          c :: jsGetSubstitution m b a (d :: rest2) := by
        simp [jsGetSubstitution, hc]
      rw [step, ih hr]

/-- The global literal replace equals joining the occurrence decomposition
with the processed replacement (which is `repl` itself when `$`-free). -/
theorem jsReplaceAllAux_eq (pat repl : List Char) (hpat : pat ≠ []) (hrepl : '$' ∉ repl) :
    ∀ (fuel : Nat) (pre s : List Char), s.length ≤ fuel →
      jsReplaceAllAux pat repl fuel pre s = intercalateChars repl (splitOnOcc pat fuel s) := by
  intro fuel
  induction fuel with
  | zero => intro pre s _; rfl
  | succ f ih =>
    intro pre s hs
    simp only [jsReplaceAllAux, splitOnOcc]
    cases hsp : splitFirst pat s with
    | none => rfl
    | some pr =>
      obtain ⟨b, a⟩ := pr
      have hseq := splitFirst_eq_append pat s b a hsp
      have hlen : a.length ≤ f := by
        have hslen : s.length = b.length + pat.length + a.length := by
          rw [hseq]
          simp [List.length_append]
          try omega
        have hp1 : 0 < pat.length := List.length_pos.mpr hpat
        omega
      dsimp only
      rw [intercalateChars_cons repl b _ (splitOnOcc_ne_nil pat f a)]
      rw [jsGetSubstitution_no_dollar pat (pre ++ b) a repl hrepl]
      rw [ih (pre ++ b ++ pat) a hlen]

/-- Joining the occurrence decomposition with the pattern itself
reconstructs the input. -/
theorem intercalate_splitOnOcc (pat : List Char) :
    ∀ (fuel : Nat) (s : List Char), intercalateChars pat (splitOnOcc pat fuel s) = s := by
  intro fuel
  induction fuel with
  | zero => intro s; rfl
  | succ f ih =>
    intro s
    simp only [splitOnOcc]
    cases hsp : splitFirst pat s with
    | none => rfl
    | some pr =>
      obtain ⟨b, a⟩ := pr
      dsimp only
      rw [intercalateChars_cons pat b _ (splitOnOcc_ne_nil pat f a), ih a]
      exact (splitFirst_eq_append pat s b a hsp).symm

/-- No part of the occurrence decomposition contains an occurrence of the
pattern at any offset. -/
theorem splitOnOcc_parts (pat : List Char) (hpat : pat ≠ []) :
    ∀ (fuel : Nat) (s : List Char), s.length ≤ fuel →
      ∀ part ∈ splitOnOcc pat fuel s, ∀ j, pat.isPrefixOf (part.drop j) = false := by
  intro fuel
  induction fuel with
  | zero =>
    intro s hs part hpart j
    have hs0 : s = [] := List.length_eq_zero.mp (by omega)
    subst hs0
    simp [splitOnOcc] at hpart
    simp [hpart, List.drop_nil, isPrefixOf_nil_false pat hpat]
  | succ f ih =>
    intro s hs part hpart j
    simp only [splitOnOcc] at hpart
    cases hsp : splitFirst pat s with
    | none =>
      rw [hsp] at hpart
      simp at hpart
      rw [hpart]
      exact splitFirst_none_no_occurrence pat s hpat hsp j
    | some pr =>
      obtain ⟨b, a⟩ := pr
      rw [hsp] at hpart
      dsimp only at hpart
      simp only [List.mem_cons] at hpart
      have hseq := splitFirst_eq_append pat s b a hsp
      rcases hpart with rfl | htl
      · by_cases hj : j < part.length
        · have hmin := splitFirst_minimal pat s part a hsp j hj
          by_contra hcon
          rw [Bool.not_eq_false] at hcon
          have hext := isPrefixOf_append_left pat (part.drop j) (pat ++ a) hcon
          have hdrop : s.drop j = part.drop j ++ (pat ++ a) := by
            rw [List.append_assoc] at hseq
            rw [hseq, List.drop_append_eq_append_drop, Nat.sub_eq_zero_of_le hj.le,
              List.drop_zero]
          rw [hdrop] at hmin
          simp [hmin] at hext
        · push_neg at hj
          rw [List.drop_eq_nil_of_le hj]
          exact isPrefixOf_nil_false pat hpat
      · have hlen : a.length ≤ f := by
          have hslen : s.length = b.length + pat.length + a.length := by
            rw [hseq]
            simp [List.length_append]
            try omega
          have hp1 : 0 < pat.length := List.length_pos.mpr hpat
          omega
        exact ih a hlen part htl j

/-- C6 counterexample: for content `aXb`, source `X` and stored path `$&!`,
the code's rewrite emits `a__GHOST_URL__X!b` — the `$&` in the stored path
is expanded by `String.replace` to the matched text — not the
`a__GHOST_URL__$&!b` the claim requires for arbitrary path characters. -/
theorem c6_rewrite_claim_counterexample :
    c6Content.toList = c6BeforePart.toList ++ c6Src.toList ++ c6AfterPart.toList ∧
    c6ClaimedResult.toList =
      c6BeforePart.toList ++ ghostUrlToken ++ c6Path.toList ++ c6AfterPart.toList ∧
    inlineContentRewrite c6Content.toList c6Src.toList c6Path.toList ≠ c6ClaimedResult.toList ∧
    inlineContentRewrite c6Content.toList c6Src.toList c6Path.toList = c6ActualResult.toList :=
  ⟨by decide, by decide, by decide, by decide⟩

/-- C6 amended: for a nonempty matched source URL and a stored path free of
`$`, the rewrite replaces every leftmost non-overlapping occurrence of the
source with `__GHOST_URL__` followed by the path, and changes nothing
else: the result is the occurrence decomposition of the content joined
with the token, that decomposition joined with the source itself
reconstructs the content, and no part of it contains the source at any
offset. -/
theorem c6_rewrite_faithfulness_amended (content src p : List Char)
    (hsrc : src ≠ []) (hp : '$' ∉ p) :
    inlineContentRewrite content src p =
      intercalateChars (ghostUrlToken ++ p) (splitOnOccurrences src content) ∧
    intercalateChars src (splitOnOccurrences src content) = content ∧
    (∀ part ∈ splitOnOccurrences src content, ∀ j, src.isPrefixOf (part.drop j) = false) := by
  have hrepl : '$' ∉ ghostUrlToken ++ p := by
    intro hmem
    rcases List.mem_append.mp hmem with h | h
    · exact absurd h (by decide)
    · exact hp h
  refine ⟨?_, intercalate_splitOnOcc src content.length content,
    fun part hpart j => splitOnOcc_parts src hsrc content.length content le_rfl part hpart j⟩
  unfold inlineContentRewrite jsReplaceAll splitOnOccurrences
  rw [if_neg hsrc]
  exact jsReplaceAllAux_eq src (ghostUrlToken ++ p) hsrc hrepl content.length [] content le_rfl

/-- Witness for the amended C6 on content with two occurrences and a
`$`-free stored path. -/
theorem c6_rewrite_faithfulness_amended_witness :
    inlineContentRewrite c6GoodContent.toList c6Src.toList c6GoodPath.toList =
      intercalateChars (ghostUrlToken ++ c6GoodPath.toList)
        (splitOnOccurrences c6Src.toList c6GoodContent.toList) ∧
    intercalateChars c6Src.toList (splitOnOccurrences c6Src.toList c6GoodContent.toList) =
      c6GoodContent.toList ∧
    (∀ part ∈ splitOnOccurrences c6Src.toList c6GoodContent.toList, ∀ j,
      (c6Src.toList).isPrefixOf (part.drop j) = false) :=
  c6_rewrite_faithfulness_amended c6GoodContent.toList c6Src.toList c6GoodPath.toList
    (by decide) (by decide)

/-- C8 counterexample: on content `https://a.com/x,httpz"` with domain
`https://a.com`, the code's lookahead `(?=(?:,https?))` terminates the
match at `,http` even though no `://` follows, producing
`https://a.com/x`; the claim's terminator (comma followed by `http://` or
`https://`) would extend the match to the quote, producing
`https://a.com/x,httpz`. -/
theorem c8_claim_counterexample :
    findMatches c8Content.toList c8Domain.toList = [c8CodeMatch.toList] ∧
    findMatchesClaim c8Content.toList c8Domain.toList = [c8ClaimMatch.toList] ∧
    findMatches c8Content.toList c8Domain.toList ≠
      findMatchesClaim c8Content.toList c8Domain.toList :=
  ⟨by decide, by decide, by decide⟩

/-- A successful domain match consumes exactly the domain-length prefix. -/
theorem domainMatchExtract_eq :
    ∀ (dom s m rest : List Char), domainMatchExtract dom s = some (m, rest) →
      m = s.take dom.length ∧ rest = s.drop dom.length := by
  intro dom
  induction dom with
  | nil =>
    intro s m rest h
    simp only [domainMatchExtract, Option.some.injEq, Prod.mk.injEq] at h
    obtain ⟨h1, h2⟩ := h
    subst h1
    subst h2
    simp
  | cons d ds ih =>
    intro s m rest h
    cases s with
    | nil => simp [domainMatchExtract] at h
    | cons c cs =>
      simp only [domainMatchExtract] at h
      by_cases hd : domCharMatches d c = true
      · rw [if_pos hd] at h
        cases hin : domainMatchExtract ds cs with
        | none => rw [hin] at h; simp at h
        | some pr =>
          obtain ⟨m', r'⟩ := pr
          rw [hin] at h
          simp only [Option.some.injEq, Prod.mk.injEq] at h
          obtain ⟨hm, hr⟩ := h
          obtain ⟨ihm, ihr⟩ := ih cs m' r' hin
          subst hm
          subst hr
          constructor
          · rw [List.length_cons, List.take_succ_cons, ihm]
          · rw [List.length_cons, List.drop_succ_cons]
            exact ihr
      · rw [if_neg hd] at h
        simp at h

/-- The non-greedy extension stops at the least offset where the
terminator group matches. -/
theorem scanExtension_eq :
    ∀ (rem acc ext : List Char) (consumed : Nat),
      scanExtension acc rem = some (ext, consumed) →
      ∃ k, k ≤ rem.length ∧ ext = acc.reverse ++ rem.take k ∧
        srcTerminationMatch (rem.drop k) = some consumed ∧
        ∀ j < k, srcTerminationMatch (rem.drop j) = none := by
  intro rem
  induction rem with
  | nil =>
    intro acc ext consumed h
    have h' : (some (acc.reverse, 0) : Option (List Char × Nat)) = some (ext, consumed) := h
    simp only [Option.some.injEq, Prod.mk.injEq] at h'
    obtain ⟨he, hc⟩ := h'
    refine ⟨0, Nat.le_refl 0, ?_, ?_, fun j hj => absurd hj (Nat.not_lt_zero j)⟩
    · rw [← he]
      simp
    · rw [List.drop_nil, ← hc]
      rfl
  | cons c rest ih =>
    intro acc ext consumed h
    cases ht : srcTerminationMatch (c :: rest) with
    | some cc =>
      have hstep : scanExtension acc (c :: rest) = some (acc.reverse, cc) := by
        simp only [scanExtension, ht]
      rw [hstep] at h
      simp only [Option.some.injEq, Prod.mk.injEq] at h
      obtain ⟨he, hc⟩ := h
      refine ⟨0, Nat.zero_le _, ?_, ?_, fun j hj => absurd hj (Nat.not_lt_zero j)⟩
      · rw [← he]
        simp
      · rw [List.drop_zero, ht, hc]
    | none =>
      have hstep : scanExtension acc (c :: rest) = scanExtension (c :: acc) rest := by
        simp only [scanExtension, ht]
      rw [hstep] at h
      obtain ⟨k, hk, he, hterm, hmin⟩ := ih (c :: acc) ext consumed h
      refine ⟨k + 1, by simpa using Nat.succ_le_succ hk, ?_, ?_, ?_⟩
      · rw [he, List.reverse_cons, List.take_succ_cons, List.append_assoc]
        simp
      · rw [List.drop_succ_cons]
        exact hterm
      · intro j hj
        cases j with
        | zero =>
          rw [List.drop_zero]
          exact ht
        | succ j' =>
          rw [List.drop_succ_cons]
          exact hmin j' (Nat.lt_of_succ_lt_succ hj)

/-- Shape of one successful match attempt: group 1 is the domain-length
prefix extended to the first terminator position. -/
theorem tryMatchAt_some (dom s m1 : List Char) (n : Nat)
    (h : tryMatchAt dom s = some (m1, n)) :
    ∃ k consumed,
      (domainMatchExtract dom s).isSome = true ∧
      m1 = s.take (dom.length + k) ∧
      srcTerminationMatch (s.drop (dom.length + k)) = some consumed ∧
      ∀ j < k, srcTerminationMatch (s.drop (dom.length + j)) = none := by
  unfold tryMatchAt at h
  cases hd : domainMatchExtract dom s with
  | none => rw [hd] at h; simp at h
  | some pr =>
    obtain ⟨m0, rest⟩ := pr
    rw [hd] at h
    have hred : (match scanExtension [] rest with
        | none => (none : Option (List Char × Nat))
        | some (ext, consumed) => some (m0 ++ ext, dom.length + ext.length + consumed))
        = some (m1, n) := h
    cases hse : scanExtension [] rest with
    | none => rw [hse] at hred; simp at hred
    | some pr2 =>
      obtain ⟨ext, consumed⟩ := pr2
      rw [hse] at hred
      have h' : (some (m0 ++ ext, dom.length + ext.length + consumed) : Option (List Char × Nat))
          = some (m1, n) := hred
      simp only [Option.some.injEq, Prod.mk.injEq] at h'
      obtain ⟨hm, hn⟩ := h'
      obtain ⟨hm0, hrest⟩ := domainMatchExtract_eq dom s m0 rest hd
      obtain ⟨k, hk, he, hterm, hmin⟩ := scanExtension_eq rest [] ext consumed hse
      subst hrest
      refine ⟨k, consumed, rfl, ?_, ?_, ?_⟩
      · rw [← hm, hm0, he]
        simp only [List.reverse_nil, List.nil_append]
        exact (List.take_add ..).symm
      · rw [List.drop_drop] at hterm
        exact hterm
      · intro j hj
        have hmj := hmin j hj
        rw [List.drop_drop] at hmj
        exact hmj

/-- Soundness of the scan: every collected capture starts at a position
where the domain matches and extends non-greedily to the first terminator
position after it. -/
theorem scanAllMatchesAux_sound (dom : List Char) :
    ∀ (fuel : Nat) (s m1 : List Char), m1 ∈ scanAllMatchesAux dom fuel s →
      ∃ i k consumed,
        (domainMatchExtract dom (s.drop i)).isSome = true ∧
        m1 = (s.drop i).take (dom.length + k) ∧
        srcTerminationMatch ((s.drop i).drop (dom.length + k)) = some consumed ∧
        ∀ j < k, srcTerminationMatch ((s.drop i).drop (dom.length + j)) = none := by
  intro fuel
  induction fuel with
  | zero =>
    intro s m1 h
    simp [scanAllMatchesAux] at h
  | succ f ih =>
    intro s m1 h
    cases s with
    | nil => simp [scanAllMatchesAux] at h
    | cons c rest =>
      simp only [scanAllMatchesAux] at h
      cases htm : tryMatchAt dom (c :: rest) with
      | none =>
        rw [htm] at h
        obtain ⟨i, k, consumed, h1, h2, h3, h4⟩ := ih rest m1 h
        exact ⟨i + 1, k, consumed, h1, h2, h3, h4⟩
      | some pr =>
        obtain ⟨m1', n⟩ := pr
        rw [htm] at h
        have h' : m1 = m1' ∨ m1 ∈ scanAllMatchesAux dom f ((c :: rest).drop (max n 1)) :=
          List.mem_cons.mp h
        rcases h' with rfl | htail
        · obtain ⟨k, consumed, h1, h2, h3, h4⟩ := tryMatchAt_some dom (c :: rest) m1 n htm
          exact ⟨0, k, consumed, h1, h2, h3, h4⟩
        · obtain ⟨i, k, consumed, h1, h2, h3, h4⟩ := ih _ m1 htail
          have hdd : (c :: rest).drop (max n 1 + i) = ((c :: rest).drop (max n 1)).drop i := by
            rw [List.drop_drop]
          exact ⟨max n 1 + i, k, consumed, by rw [hdd]; exact h1, by rw [hdd]; exact h2,
            by rw [hdd]; exact h3, by rw [hdd]; exact h4⟩

/-- C8 amended: `findMatches` strips one trailing comma from each capture
of the scan, and every capture of the scan starts at a (case-insensitive,
dot-wildcard) occurrence of the domain and extends non-greedily up to (and
not including) the first position after it where the terminator group
matches — double-quote, closing parenthesis, single-quote, comma
immediately followed by `http` (the code's lookahead has no `://`), space,
`<`, backslash, `&quot;`, end of line, or end of string. -/
theorem c8_match_shape_amended (content dom : List Char) :
    findMatches content dom = (scanAllMatches dom content).map stripTrailingComma ∧
    ∀ m1 ∈ scanAllMatches dom content, ∃ i k consumed,
      (domainMatchExtract dom (content.drop i)).isSome = true ∧
      m1 = (content.drop i).take (dom.length + k) ∧
      srcTerminationMatch ((content.drop i).drop (dom.length + k)) = some consumed ∧
      ∀ j < k, srcTerminationMatch ((content.drop i).drop (dom.length + j)) = none :=
  ⟨rfl, fun m1 hm => scanAllMatchesAux_sound dom content.length content m1 hm⟩

/-- Witness for the amended C8: the single capture on the counterexample
content has the described shape. -/
theorem c8_match_shape_amended_witness :
    ∃ i k consumed,
      (domainMatchExtract c8Domain.toList (c8Content.toList.drop i)).isSome = true ∧
      c8CodeMatch.toList = (c8Content.toList.drop i).take (c8Domain.toList.length + k) ∧
      srcTerminationMatch ((c8Content.toList.drop i).drop (c8Domain.toList.length + k)) =
        some consumed ∧
      ∀ j < k, srcTerminationMatch ((c8Content.toList.drop i).drop (c8Domain.toList.length + j)) =
        none :=
  (c8_match_shape_amended c8Content.toList c8Domain.toList).2 c8CodeMatch.toList (by decide)

end MediaInliner
